import Mathlib

/-!
# Shallow embedding of the smartlistas shopping-list optimizers

This file models, in Lean, the algorithmic core of the repository:

* `SL.Gen` — `backend/app/services/shopping_optimizer.py` (generic list
  optimizer: exact bounded search, greedy first pass, redistribution,
  baselines, result shaping);
* `SL.App` — `backend/app/services/app_shopping_optimizer.py` (location-aware
  app optimizer: greedy marginal-value allocation, fallback prices,
  orchestration of `optimize_for_user_city`);
* `SL.Geo` — `backend/app/services/city_location.py` (centroid resolution and
  the haversine distance).

Python floats are modelled as `ℚ` (for the price arithmetic, which the claims
treat as exact arithmetic) and as `ℝ` for the trigonometric haversine
formula.  Python `dict`s (which iterate in insertion order) are modelled as
association lists in first-touch order; Python's stable `sort` is modelled by
`List.insertionSort` (stable for the orders used here).  Database reads are
inputs: each embedded operation takes the rows the queries would return.
-/

namespace SL

/-- Python `defaultdict(list)` bucket append: `m[k].append(a)`.  A fresh key is
created at the end, matching dict insertion order. -/
def pushBucket {α : Type} (k : Nat) (a : α) : List (Nat × List α) → List (Nat × List α)
  | [] => [(k, [a])]
  | (k', xs) :: t => if k' = k then (k', xs ++ [a]) :: t else (k', xs) :: pushBucket k a t

/-- Python dict comprehension grouping a list by a key, in encounter order. -/
def groupByKey {α : Type} (key : α → Nat) (l : List α) : List (Nat × List α) :=
  l.foldl (fun m a => pushBucket (key a) a m) []

/-- Python `m.get(k)`. -/
def lookup? {β : Type} (k : Nat) (m : List (Nat × β)) : Option β :=
  (m.find? (fun p => p.1 == k)).map (·.2)

/-- Python `m[k] = v` (update in place, or append a fresh key). -/
def setVal {β : Type} (k : Nat) (v : β) : List (Nat × β) → List (Nat × β)
  | [] => [(k, v)]
  | (k', v') :: t => if k' = k then (k', v) :: t else (k', v') :: setVal k v t

/-- Python `defaultdict(float)` accumulation: `m[k] += d`. -/
def addVal (k : Nat) (d : ℚ) : List (Nat × ℚ) → List (Nat × ℚ)
  | [] => [(k, d)]
  | (k', v) :: t => if k' = k then (k', v + d) :: t else (k', v) :: addVal k d t

/-- Python `defaultdict(set)` insertion: `m[k].add(x)`. -/
def addToSet (k : Nat) (x : Nat) : List (Nat × List Nat) → List (Nat × List Nat)
  | [] => [(k, [x])]
  | (k', xs) :: t =>
      if k' = k then (k', if x ∈ xs then xs else xs ++ [x]) :: t
      else (k', xs) :: addToSet k x t

/-- Python set equality of two membership lists. -/
def setEqNat (a b : List Nat) : Bool :=
  a.all (fun x => b.contains x) && b.all (fun x => a.contains x)

/-- Python `max` over a nonempty list of floats (0 as junk value on `[]`). -/
def maxQ : List ℚ → ℚ
  | [] => 0
  | x :: xs => xs.foldl max x

/-- Python `min` over a nonempty list of floats (0 as junk value on `[]`). -/
def minQ : List ℚ → ℚ
  | [] => 0
  | x :: xs => xs.foldl min x

/-- First-defined of two options (the early-return cascade shape). -/
def firstSome {α : Type} (a b : Option α) : Option α :=
  match a with
  | some x => some x
  | none => b

namespace Gen

/-- `ItemPrice` dataclass of `shopping_optimizer.py`; the comparison fields
(`worst_price`, `worst_store_name`, `item_savings`) start at their dataclass
defaults and are filled by `_add_price_comparison`. -/
structure ItemPrice where
  item_id : Nat
  canonical_id : Nat
  store_id : Nat
  store_name : String
  price : ℚ
  quantity : ℚ
  subtotal : ℚ
  worst_price : ℚ := 0
  worst_store_name : String := ""
  item_savings : ℚ := 0
deriving Repr, DecidableEq

/-- `Store` ORM row fields used by the generic optimizer (`nome` is the razão
social the code reads through `razao_social`). -/
structure Store where
  id : Nat
  nome_fantasia : Option String
  nome : String
  endereco : String
  cidade : String
deriving Repr, DecidableEq

/-- `StoreAllocation` dataclass. -/
structure StoreAllocation where
  store_id : Nat
  store_name : String
  store_address : String
  items : List ItemPrice
  total : ℚ
deriving Repr, DecidableEq

/-- `OptimizationResult` dataclass of the generic optimizer.  Note it has no
`items_outside_selected_stores` field. -/
structure OptimizationResult where
  success : Bool
  message : String
  allocations : List StoreAllocation
  total_cost : ℚ
  total_if_single_store : ℚ
  savings : ℚ
  savings_percent : ℚ
  total_worst_cost : ℚ
  potential_savings : ℚ
  potential_savings_percent : ℚ
  items_without_price : List Nat
deriving Repr, DecidableEq

/-- A shopping-list item (`ShoppingListItem` row): id, canonical product,
quantity. -/
structure SLItem where
  id : Nat
  canonical_id : Nat
  quantity : ℚ
deriving Repr, DecidableEq

/-- Python `min(prices, key=lambda x: x.price, default=None)`: first strict
minimum by price. -/
def minByPrice (l : List ItemPrice) : Option ItemPrice :=
  l.foldl
    (fun acc p =>
      match acc with
      | none => some p
      | some q => if p.price < q.price then some p else acc)
    none

/-- Python `max(prices, key=lambda x: x.price)`: first strict maximum by
price (`none` on an empty list). -/
def maxByPrice (l : List ItemPrice) : Option ItemPrice :=
  l.foldl
    (fun acc p =>
      match acc with
      | none => some p
      | some q => if q.price < p.price then some p else acc)
    none

/-- `store.nome_fantasia or store.razao_social` (Python `or`: `None` and `""`
are falsy). -/
def storeDisplayName (s : Store) : String :=
  match s.nome_fantasia with
  | some n => if n = "" then s.nome else n
  | none => s.nome

/-- `min((p for p in prices if p.store_id in combo_set), key=..., default=None)`. -/
def best_in_combo (combo : List Nat) (prices : List ItemPrice) : Option ItemPrice :=
  minByPrice (prices.filter (fun p => combo.contains p.store_id))

/-- Number of items of `prices_by_item` covered by the store combination. -/
def combo_covered (pbi : List (Nat × List ItemPrice)) (combo : List Nat) : Nat :=
  (pbi.filter (fun g => (best_in_combo combo g.2).isSome)).length

/-- Total cost of the combination: cheapest in-combination offer per covered
item. -/
def combo_total (pbi : List (Nat × List ItemPrice)) (combo : List Nat) : ℚ :=
  (pbi.filterMap (fun g => (best_in_combo combo g.2).map (·.subtotal))).sum

/-- Item ids of `prices_by_item` with no offer inside the combination. -/
def combo_missing (pbi : List (Nat × List ItemPrice)) (combo : List Nat) : List Nat :=
  (pbi.filter (fun g => (best_in_combo combo g.2).isNone)).map (·.1)

/-- `itertools.combinations(store_ids, k)` in its lexicographic-by-position
order. -/
def combos : Nat → List Nat → List (List Nat)
  | 0, _ => [[]]
  | _ + 1, [] => []
  | k + 1, x :: xs => (combos k xs).map (fun c => x :: c) ++ combos (k + 1) xs
termination_by k l => (l.length, k)

/-- The `for k in range(1, max_stores+1): for combo in combinations(...)`
enumeration order. -/
def all_combos (store_ids : List Nat) (max_stores : Nat) : List (List Nat) :=
  (List.range' 1 max_stores).flatMap (fun k => combos k store_ids)

/-- The strict "better combination" order of `_find_best_store_set`:
more coverage, or equal coverage at strictly lower cost. -/
def strictly_better (pbi : List (Nat × List ItemPrice)) (c d : List Nat) : Prop :=
  combo_covered pbi d < combo_covered pbi c ∨
    (combo_covered pbi d = combo_covered pbi c ∧ combo_total pbi c < combo_total pbi d)

/-- Running state of `_find_best_store_set`. -/
structure BestSetState where
  best_total : Option ℚ
  best_set : Option (List Nat)
  best_missing : List Nat
  best_covered : Int
deriving Repr, DecidableEq

/-- One iteration of the `_find_best_store_set` loop body. -/
def fbss_step (pbi : List (Nat × List ItemPrice)) (st : BestSetState) (combo : List Nat) :
    BestSetState :=
  let covered : Int := (combo_covered pbi combo : Int)
  let total := combo_total pbi combo
  let missing := combo_missing pbi combo
  if st.best_covered < covered then
    ⟨some total, some combo, missing, covered⟩
  else if covered = st.best_covered ∧ 0 < covered then
    match st.best_total with
    | none => ⟨some total, some combo, missing, covered⟩
    | some bt => if total < bt then ⟨some total, some combo, missing, covered⟩ else st
  else st

/-- `_find_best_store_set`: scan every store combination of size
`1..max_stores`, keeping the first one that maximizes coverage and, among
those, minimizes total cost. -/
def find_best_store_set (pbi : List (Nat × List ItemPrice)) (store_ids : List Nat)
    (max_stores : Nat) : Option (List Nat) × List Nat :=
  let fin := (all_combos store_ids max_stores).foldl (fbss_step pbi) ⟨none, none, [], -1⟩
  (fin.best_set, fin.best_missing)

/-- Shared shape of the three allocation builders: one chosen offer per item
group, pushed into its store's bucket. -/
def choiceFold (pbi : List (Nat × List ItemPrice))
    (choice : Nat × List ItemPrice → Option ItemPrice) : List (Nat × List ItemPrice) :=
  pbi.foldl
    (fun m g =>
      match choice g with
      | some p => pushBucket p.store_id p m
      | none => m)
    []

/-- Rebuild of the allocation from the winning store set (lines 289–295). -/
def exact_allocation (pbi : List (Nat × List ItemPrice)) (best_set : List Nat)
    (missing : List Nat) : List (Nat × List ItemPrice) :=
  choiceFold pbi (fun g => if g.1 ∈ missing then none else best_in_combo best_set g.2)

/-- `_allocation_to_result`: drop empty buckets, shape `StoreAllocation`
records, sort by total descending (stable). -/
def allocation_to_result (stores : List Store) (alloc : List (Nat × List ItemPrice)) :
    List StoreAllocation :=
  let result := alloc.filterMap (fun g =>
    if g.2 = [] then none
    else
      some
        { store_id := g.1
          store_name :=
            match stores.find? (fun s => s.id == g.1) with
            | some s => storeDisplayName s
            | none => "Desconhecido"
          store_address :=
            match stores.find? (fun s => s.id == g.1) with
            | some s => s.endereco ++ ", " ++ s.cidade
            | none => ""
          items := g.2
          total := (g.2.map (·.subtotal)).sum })
  List.insertionSort (fun a b => b.total ≤ a.total) result

/-- Stores that are the only fresh-price source of some item (the
`required_stores` set of `_redistribute`, in its `sorted(...)` order). -/
def required_stores (pbi : List (Nat × List ItemPrice)) : List Nat :=
  List.insertionSort (· ≤ ·)
    ((pbi.filterMap (fun g =>
        match (g.2.map (·.store_id)).dedup with
        | [s] => some s
        | _ => none)).dedup)

/-- The per-store "value" ranking of `_redistribute` (savings each store
contributes versus the runner-up offer of each of its chosen items). -/
def store_value (pbi : List (Nat × List ItemPrice))
    (item_allocation : List (Nat × ItemPrice)) : List (Nat × ℚ) :=
  item_allocation.foldl
    (fun sv ia =>
      match lookup? ia.1 pbi with
      | some (p0 :: p1 :: _) =>
          let second_best := if p0.store_id = ia.2.store_id then p1.subtotal else p0.subtotal
          addVal ia.2.store_id (second_best - ia.2.subtotal) sv
      | _ => sv)
    []

/-- The `top_stores` selection of `_redistribute`: required stores first, then
highest-valued stores until the cap is reached. -/
def top_stores (required : List Nat) (ranked : List Nat) (max_stores : Nat) : List Nat :=
  let t0 := required.foldl (fun ts s => if s ∈ ts then ts else ts ++ [s]) []
  ranked.foldl
    (fun ts s =>
      if max_stores ≤ ts.length then ts
      else if s ∈ ts then ts else ts ++ [s])
    t0

/-- The value-descending store ranking (`sorted(store_value.keys(), ...,
reverse=True)`, stable). -/
def ranked_stores (sv : List (Nat × ℚ)) : List Nat :=
  (List.insertionSort (fun a b => b.2 ≤ a.2) sv).map (·.1)

/-- The set of stores `_redistribute` keeps: the required stores when they
already bust the cap, otherwise required stores topped up by value rank. -/
def top_set_of (pbi : List (Nat × List ItemPrice))
    (item_allocation : List (Nat × ItemPrice)) (max_stores : Nat) : List Nat :=
  let required := required_stores pbi
  if max_stores < required.length then required
  else top_stores required (ranked_stores (store_value pbi item_allocation)) max_stores

/-- The scan for the cheapest offer among the selected stores (strictly
cheaper replaces, so the first minimum wins). -/
def best_in_top (top : List Nat) (prices : List ItemPrice) : Option ItemPrice :=
  prices.foldl
    (fun b ip =>
      if top.contains ip.store_id then
        match b with
        | none => some ip
        | some cur => if ip.price < cur.price then some ip else b
      else b)
    none

/-- `_redistribute` (lines 382–457): keep required stores plus the
highest-value stores, then re-place every item on the cheapest selected
store, overflowing (and raising the flag) when an item has no offer among the
selected stores. -/
def redistribute (pbi : List (Nat × List ItemPrice))
    (item_allocation : List (Nat × ItemPrice)) (max_stores : Nat) :
    List (Nat × List ItemPrice) × List (Nat × ItemPrice) × Bool :=
  let exceeded0 : Bool := decide (max_stores < (required_stores pbi).length)
  let top_set := top_set_of pbi item_allocation max_stores
  pbi.foldl
    (fun acc g =>
      match best_in_top top_set g.2 with
      | some best =>
          (pushBucket best.store_id best acc.1, acc.2.1 ++ [(g.1, best)], acc.2.2)
      | none =>
          match g.2 with
          | [] => acc
          | best :: _ =>
              (pushBucket best.store_id best acc.1, acc.2.1 ++ [(g.1, best)],
               acc.2.2 || !(top_set.contains best.store_id)))
    ([], [], exceeded0)

/-- `prices_by_item[item_id].sort(key=lambda x: x.price)` applied to every
group (stable). -/
def sort_groups (pbi : List (Nat × List ItemPrice)) : List (Nat × List ItemPrice) :=
  pbi.map (fun g => (g.1, List.insertionSort (fun a b => a.price ≤ b.price) g.2))

/-- The first greedy pass (lines 303–311): allocate every item to its
cheapest store, also recording the per-item chosen offer. -/
def first_pass (pbi2 : List (Nat × List ItemPrice)) :
    List (Nat × List ItemPrice) × List (Nat × ItemPrice) :=
  pbi2.foldl
    (fun (acc : List (Nat × List ItemPrice) × List (Nat × ItemPrice)) g =>
      match g.2 with
      | [] => acc
      | best :: _ => (pushBucket best.store_id best acc.1, acc.2 ++ [(g.1, best)]))
    ([], [])

/-- The greedy part of `_optimize_allocation` (lines 299–323): sort each
item's offers, allocate each to its cheapest store, redistribute if the store
cap is exceeded. -/
def greedy_allocation (stores : List Store) (pbi : List (Nat × List ItemPrice))
    (max_stores : Nat) : List StoreAllocation × Bool :=
  let pbi2 := sort_groups pbi
  let fp := first_pass pbi2
  if max_stores < fp.1.length then
    let r := redistribute pbi2 fp.2 max_stores
    (allocation_to_result stores r.1, r.2.2)
  else
    (allocation_to_result stores fp.1, false)

/-- `_optimize_allocation`: bounded exact search when the instance is small
(`1 ≤ max_stores ≤ 3`, at most 15 candidate stores), greedy + redistribution
otherwise. -/
def optimize_allocation (stores : List Store) (item_prices : List ItemPrice)
    (max_stores : Nat) : List StoreAllocation × Bool :=
  let pbi := groupByKey (·.item_id) item_prices
  let store_ids := List.insertionSort (· ≤ ·) ((item_prices.map (·.store_id)).dedup)
  if 1 ≤ max_stores ∧ max_stores ≤ 3 ∧ store_ids.length ≤ 15 then
    match find_best_store_set pbi store_ids max_stores with
    | (some best_set, missing) =>
        if best_set = [] then greedy_allocation stores pbi max_stores
        else (allocation_to_result stores (exact_allocation pbi best_set missing), false)
    | (none, _) => greedy_allocation stores pbi max_stores
  else greedy_allocation stores pbi max_stores

/-- The per-item body of `_add_price_comparison`: stamp an allocated offer
with the worst observed price of its item and the per-item savings. -/
def stamp_worst (pbi : List (Nat × List ItemPrice)) (item : ItemPrice) : ItemPrice :=
  match lookup? item.item_id pbi with
  | some (p :: ps) =>
      match maxByPrice (p :: ps) with
      | some worst =>
          { item with
            worst_price := worst.price
            worst_store_name := worst.store_name
            item_savings := (worst.price - item.price) * item.quantity }
      | none => item
  | _ => item

/-- `_add_price_comparison`: stamp each allocated offer with the worst
observed price of its item and the per-item savings. -/
def add_price_comparison (allocations : List StoreAllocation)
    (all_prices : List ItemPrice) : List StoreAllocation :=
  let pbi := groupByKey (·.item_id) all_prices
  allocations.map (fun a => { a with items := a.items.map (stamp_worst pbi) })

/-- `_calculate_single_store_cost`: cheapest store carrying every priced item,
else the pessimistic per-item worst-subtotal sum. -/
def calculate_single_store_cost (item_prices : List ItemPrice) : ℚ :=
  let store_items := item_prices.foldl (fun m ip => addToSet ip.store_id ip.item_id m) []
  let all_items := (item_prices.map (·.item_id)).dedup
  let complete_stores := (store_items.filter (fun g => setEqNat g.2 all_items)).map (·.1)
  if complete_stores = [] then
    let pbi := groupByKey (·.item_id) item_prices
    (pbi.map (fun g => maxQ (g.2.map (·.subtotal)))).sum
  else
    let store_totals := item_prices.foldl
      (fun m ip =>
        if complete_stores.contains ip.store_id then addVal ip.store_id ip.subtotal m else m)
      []
    if store_totals = [] then 0
    else minQ (complete_stores.map (fun s => (lookup? s store_totals).getD 0))

/-- An all-zero failure result with the given message and unpriced items. -/
def failResult (message : String) (items_without_price : List Nat) : OptimizationResult :=
  { success := false, message, allocations := [], total_cost := 0,
    total_if_single_store := 0, savings := 0, savings_percent := 0,
    total_worst_cost := 0, potential_savings := 0, potential_savings_percent := 0,
    items_without_price }

/-- `ShoppingOptimizer.optimize`, from the point where the list and the price
rows are in hand (lines 110–207; the DB fetches are the function's inputs and
`_save_optimization` is the persistence side effect, not part of the returned
value). -/
def optimize (stores : List Store) (items : List SLItem) (max_stores_opt : Option Nat)
    (item_prices : List ItemPrice) : OptimizationResult :=
  if items = [] then failResult "Lista vazia" []
  else
    let max_stores := match max_stores_opt with
      | some n => if n = 0 then 3 else n
      | none => 3
    if item_prices = [] then
      failResult "Nenhum preço encontrado para os itens da lista" (items.map (·.id))
    else
      let items_with_price := item_prices.map (·.item_id)
      let items_without_price :=
        (items.filter (fun it => !(items_with_price.contains it.id))).map (·.id)
      let ar := optimize_allocation stores item_prices max_stores
      let allocations0 := ar.1
      let allocated_item_ids := (allocations0.flatMap (·.items)).map (·.item_id)
      let excluded_by_limit :=
        (items.filter (fun it =>
          !(allocated_item_ids.contains it.id) && !(items_without_price.contains it.id))).map (·.id)
      let items_without_price2 := items_without_price ++ excluded_by_limit
      let allocations := add_price_comparison allocations0 item_prices
      let total_cost := (allocations.map (·.total)).sum
      let total_worst_cost :=
        (allocations.map (fun a =>
          (a.items.map (fun ip =>
            (if 0 < ip.worst_price then ip.worst_price else ip.price) * ip.quantity)).sum)).sum
      let total_if_single_store := calculate_single_store_cost item_prices
      let savings := total_if_single_store - total_cost
      let savings_percent :=
        if 0 < total_if_single_store then savings / total_if_single_store * 100 else 0
      let potential_savings := total_worst_cost - total_cost
      let potential_savings_percent :=
        if 0 < total_worst_cost then potential_savings / total_worst_cost * 100 else 0
      let message :=
        if excluded_by_limit ≠ [] ∧ 0 < max_stores then
          "Lista otimizada em " ++ toString allocations.length ++
            " supermercado(s) (limitado a " ++ toString max_stores ++ "; " ++
            toString excluded_by_limit.length ++
            " item(ns) ficaram sem preço dentro do limite)"
        else "Lista otimizada em " ++ toString allocations.length ++ " supermercado(s)"
      { success := true, message, allocations, total_cost, total_if_single_store,
        savings, savings_percent, total_worst_cost, potential_savings,
        potential_savings_percent, items_without_price := items_without_price2 }

end Gen

namespace App

/-- `ItemPrice` dataclass of `app_shopping_optimizer.py` (dates as integer
timestamps). -/
structure ItemPrice where
  item_id : Nat
  canonical_id : Nat
  store_id : Nat
  store_name : String
  price : ℚ
  price_date : Int
  quantity : ℚ
  subtotal : ℚ
deriving Repr, DecidableEq

/-- `FallbackPrice` dataclass. -/
structure FallbackPrice where
  canonical_id : Nat
  store_id : Nat
  store_name : String
  price : ℚ
  price_date : Int
deriving Repr, DecidableEq

/-- `StoreAllocation` dataclass of the app optimizer. -/
structure StoreAllocation where
  store_id : Nat
  store_name : String
  store_address : String
  items : List ItemPrice
  total : ℚ
deriving Repr, DecidableEq

/-- `OptimizationResult` dataclass of the app optimizer.  It has neither a
`items_outside_selected_stores` field nor worst-cost fields. -/
structure OptimizationResult where
  success : Bool
  message : String
  allocations : List StoreAllocation
  total_cost : ℚ
  total_if_single_store : ℚ
  savings : ℚ
  savings_percent : ℚ
  items_without_price : List Nat
deriving Repr, DecidableEq

/-- `AppShoppingListItem` row fields used by the optimizer. -/
structure AppItem where
  id : Nat
  canonical_id : Nat
  quantity : ℚ
deriving Repr, DecidableEq

/-- `Store` ORM row fields used by the app optimizer. -/
structure Store where
  id : Nat
  nome_fantasia : Option String
  nome : String
  endereco : String
  cidade : String
deriving Repr, DecidableEq

/-- A `precos` table row as consumed by `_get_fallback_prices`. -/
structure PriceRow where
  canonical_id : Nat
  loja_id : Nat
  preco_por_unidade : ℚ
  data_coleta : Int
deriving Repr, DecidableEq

/-- `(store.nome_fantasia or store.nome)` with Python falsiness. -/
def storeDisplayName (s : Store) : String :=
  match s.nome_fantasia with
  | some n => if n = "" then s.nome else n
  | none => s.nome

/-- The SQL of `_get_fallback_prices`: filter to the requested products and
eligible stores, and keep only each `(canonical_id, loja_id)` group's
latest-dated rows (no lookback cutoff). -/
def latest_rows (rows : List PriceRow) (canonical_ids : List Nat) (eligible : List Nat) :
    List PriceRow :=
  let filtered := rows.filter
    (fun r => canonical_ids.contains r.canonical_id && eligible.contains r.loja_id)
  filtered.filter (fun r =>
    filtered.all (fun r2 =>
      !(r2.canonical_id == r.canonical_id && r2.loja_id == r.loja_id) ||
        r2.data_coleta ≤ r.data_coleta))

/-- `_get_fallback_prices`: among each store's most recent observation, keep
the cheapest offer per product (strictly-cheaper replacement, so the first
row wins ties). -/
def get_fallback_prices (stores : List Store) (rows : List PriceRow)
    (canonical_ids : List Nat) (eligible : List Nat) : List (Nat × FallbackPrice) :=
  if canonical_ids = [] ∨ eligible = [] then []
  else
    (latest_rows rows canonical_ids eligible).foldl
      (fun m r =>
        match stores.find? (fun s => s.id == r.loja_id) with
        | none => m
        | some st =>
            let cand : FallbackPrice :=
              { canonical_id := r.canonical_id, store_id := r.loja_id,
                store_name := storeDisplayName st, price := r.preco_por_unidade,
                price_date := r.data_coleta }
            match lookup? r.canonical_id m with
            | none => m ++ [(r.canonical_id, cand)]
            | some prev =>
                if cand.price < prev.price then setVal r.canonical_id cand m else m)
      []

/-- Reference scan used to state what `_get_fallback_prices` computes for one
product: the first-wins cheapest candidate built from the given rows. -/
def fb_scan (stores : List Store) (c : Nat) (l : List PriceRow) : Option FallbackPrice :=
  l.foldl
    (fun acc r =>
      match stores.find? (fun s => s.id == r.loja_id) with
      | none => acc
      | some st =>
          if r.canonical_id = c then
            let cand : FallbackPrice :=
              { canonical_id := r.canonical_id, store_id := r.loja_id,
                store_name := storeDisplayName st, price := r.preco_por_unidade,
                price_date := r.data_coleta }
            match acc with
            | none => some cand
            | some prev => if cand.price < prev.price then some cand else acc
          else acc)
    none

/-- The `INF` sentinel of `_greedy_allocate`. -/
def INF : ℚ := 10 ^ 12

/-- The missing-item penalty of `_greedy_allocate`. -/
def penalty_missing : ℚ := 10 ^ 9

/-- The inner `store_item_best` update: keep the cheapest offer per
`(store, item)` pair. -/
def sibUpdate (sid item_id : Nat) (p : ItemPrice)
    (m : List (Nat × List (Nat × ItemPrice))) : List (Nat × List (Nat × ItemPrice)) :=
  match lookup? sid m with
  | none => m ++ [(sid, [(item_id, p)])]
  | some inner =>
      match lookup? item_id inner with
      | none => setVal sid (inner ++ [(item_id, p)]) m
      | some prev => if p.price < prev.price then setVal sid (setVal item_id p inner) m else m

/-- The score a candidate store receives in one greedy round: the total cost
of the running best-price map augmented with that store's offers, with
missing items charged `penalty_missing` each. -/
def store_score (pbi : List (Nat × List ItemPrice)) (all_item_ids : List Nat)
    (sib_s : List (Nat × ItemPrice)) (bbi : List (Nat × ItemPrice)) : ℚ :=
  let tm := all_item_ids.foldl
    (fun (acc : ℚ × Nat) item_id =>
      let current := lookup? item_id bbi
      let cand := lookup? item_id sib_s
      match current, cand with
      | none, none => (acc.1, acc.2 + 1)
      | _, _ =>
          let bp0 : ℚ := match current with | some c => c.price | none => INF
          let bp : ℚ := match cand with
            | some cd => if cd.price < bp0 then cd.price else bp0
            | none => bp0
          if INF ≤ bp then (acc.1, acc.2 + 1)
          else
            let qty : ℚ := match lookup? item_id pbi with
              | some (p :: _) => p.quantity
              | _ => 0
            (acc.1 + bp * qty, acc.2))
    (0, 0)
  tm.1 + (tm.2 : ℚ) * penalty_missing

/-- One greedy round's `best_store` selection (first strict minimum of the
score over the not-yet-selected candidates). -/
def select_store (cands : List Nat) (selected : List Nat) (scoreOf : Nat → ℚ) :
    Option Nat :=
  (cands.foldl
    (fun (acc : Option (Nat × ℚ)) sid =>
      if selected.contains sid then acc
      else
        match acc with
        | none => some (sid, scoreOf sid)
        | some best => if scoreOf sid < best.2 then some (sid, scoreOf sid) else acc)
    none).map (·.1)

/-- Merging the chosen store's offers into `best_by_item`. -/
def merge_store (bbi : List (Nat × ItemPrice)) (sib_s : List (Nat × ItemPrice)) :
    List (Nat × ItemPrice) :=
  sib_s.foldl
    (fun m e =>
      match lookup? e.1 m with
      | none => m ++ [e]
      | some cur => if e.2.price < cur.price then setVal e.1 e.2 m else m)
    bbi

/-- The bounded selection loop of `_greedy_allocate` (`for _ in range(n)` with
its two `break`s). -/
def greedy_loop (pbi : List (Nat × List ItemPrice)) (all_item_ids : List Nat)
    (sib : List (Nat × List (Nat × ItemPrice))) (cands : List Nat) :
    Nat → List Nat × List (Nat × ItemPrice) → List Nat × List (Nat × ItemPrice)
  | 0, st => st
  | n + 1, st =>
      let scoreOf := fun sid => store_score pbi all_item_ids ((lookup? sid sib).getD []) st.2
      match select_store cands st.1 scoreOf with
      | none => st
      | some bs =>
          let selected := st.1 ++ [bs]
          let bbi := merge_store st.2 ((lookup? bs sib).getD [])
          if bbi.length = all_item_ids.length then (selected, bbi)
          else greedy_loop pbi all_item_ids sib cands n (selected, bbi)

/-- `_greedy_allocate`: iteratively select up to `max(1, max_stores)` stores
by marginal score, then allocate every item covered by the selected stores
and report the rest as left outside. -/
def greedy_allocate (stores : List Store) (item_prices : List ItemPrice)
    (max_stores : Int) : List StoreAllocation × List Nat :=
  let pbi0 := groupByKey (·.item_id) item_prices
  let pbi := pbi0.map (fun g => (g.1, List.insertionSort (fun a b => a.price ≤ b.price) g.2))
  let ms : Int := max 1 (if max_stores = 0 then 1 else max_stores)
  let sib := pbi.foldl (fun m g => g.2.foldl (fun m2 p => sibUpdate p.store_id g.1 p m2) m) []
  let cands := sib.map (·.1)
  if cands = [] then ([], pbi.map (·.1))
  else
    let all_item_ids := pbi.map (·.1)
    let n : Nat := (min ms (cands.length : Int)).toNat
    let sel := greedy_loop pbi all_item_ids sib cands n ([], [])
    let fin := all_item_ids.foldl
      (fun (acc : List (Nat × List ItemPrice) × List Nat) item_id =>
        match lookup? item_id sel.2 with
        | some best =>
            if sel.1.contains best.store_id then (pushBucket best.store_id best acc.1, acc.2)
            else (acc.1, acc.2 ++ [item_id])
        | none => (acc.1, acc.2 ++ [item_id]))
      ([], [])
    let result : List StoreAllocation := fin.1.map (fun g =>
      { store_id := g.1
        store_name :=
          match stores.find? (fun s => s.id == g.1) with
          | some s => storeDisplayName s
          | none => "Desconhecido"
        store_address :=
          match stores.find? (fun s => s.id == g.1) with
          | some s =>
              match (if s.endereco = "" then [] else [s.endereco]) ++
                    (if s.cidade = "" then [] else [s.cidade]) with
              | [] => ""
              | [x] => x
              | [x, y] => x ++ ", " ++ y
              | _ => ""
          | none => ""
        items := g.2
        total := (g.2.map (·.subtotal)).sum })
    (List.insertionSort (fun a b => b.total ≤ a.total) result, fin.2)

/-- `_calculate_single_store_cost` of the app optimizer (identical algorithm
to the generic one). -/
def calculate_single_store_cost (item_prices : List ItemPrice) : ℚ :=
  let store_items := item_prices.foldl (fun m ip => addToSet ip.store_id ip.item_id m) []
  let all_items := (item_prices.map (·.item_id)).dedup
  let complete_stores := (store_items.filter (fun g => setEqNat g.2 all_items)).map (·.1)
  if complete_stores = [] then
    let pbi := groupByKey (·.item_id) item_prices
    (pbi.map (fun g => maxQ (g.2.map (·.subtotal)))).sum
  else
    let store_totals := item_prices.foldl
      (fun m ip =>
        if complete_stores.contains ip.store_id then addVal ip.store_id ip.subtotal m else m)
      []
    if store_totals = [] then 0
    else minQ (complete_stores.map (fun s => (lookup? s store_totals).getD 0))

/-- A resolved centroid (rational coordinates). -/
structure LatLngQ where
  lat : ℚ
  lng : ℚ
deriving Repr, DecidableEq

/-- Python falsiness of an optional string (`None` and `""`). -/
def falsyStr : Option String → Bool
  | none => true
  | some s => s = ""

/-- An all-zero `success=False` result. -/
def failResult (message : String) (items_without_price : List Nat) : OptimizationResult :=
  { success := false, message, allocations := [], total_cost := 0,
    total_if_single_store := 0, savings := 0, savings_percent := 0,
    items_without_price }

/-- `AppShoppingOptimizer.optimize_for_user_city` (lines 65–163).  The DB
reads are inputs: `sl` is the looked-up list's items (`none` when the list is
not found), `centroid` is the outcome of `resolve_city_centroid` on the
user's UF/city, `eligible_store_ids` the outcome of
`_eligible_stores_by_city_radius`, and `item_prices` the outcome of
`_get_item_prices`; `_save_optimization` is a side effect, not part of the
returned value. -/
def optimize_for_user_city (stores : List Store) (sl : Option (List AppItem))
    (max_stores_opt : Option Int) (user_uf user_city : Option String)
    (centroid : Option LatLngQ) (eligible_store_ids : List Nat)
    (item_prices : List ItemPrice) : OptimizationResult :=
  match sl with
  | none => failResult "Lista não encontrada" []
  | some items =>
      if items = [] then failResult "Lista vazia" []
      else if falsyStr user_uf || falsyStr user_city then
        failResult "Informe UF e cidade no seu cadastro para otimizar a lista."
          (items.map (·.id))
      else
        match centroid with
        | none =>
            failResult
              "Não foi possível localizar sua cidade para calcular o raio. Tente novamente mais tarde ou ajuste seu cadastro."
              (items.map (·.id))
        | some _ =>
            if eligible_store_ids = [] then
              failResult "Não encontramos supermercados dentro do seu raio de compra."
                (items.map (·.id))
            else
              let max_stores : Int := match max_stores_opt with
                | some n => if n = 0 then 3 else n
                | none => 3
              if item_prices = [] then
                failResult
                  "Não encontramos preços recentes para os itens desta lista em supermercados dentro do seu raio."
                  (items.map (·.id))
              else
                let ao := greedy_allocate stores item_prices max_stores
                let allocations := ao.1
                let total_cost := (allocations.map (·.total)).sum
                let total_if_single_store := calculate_single_store_cost item_prices
                let savings := total_if_single_store - total_cost
                let savings_percent :=
                  if 0 < total_if_single_store then savings / total_if_single_store * 100
                  else 0
                let items_with_price := item_prices.map (·.item_id)
                let items_without_price :=
                  (items.filter (fun it => !(items_with_price.contains it.id))).map (·.id)
                { success := true
                  message := "Lista otimizada em " ++ toString allocations.length ++
                    " supermercado(s)"
                  allocations, total_cost, total_if_single_store, savings,
                  savings_percent, items_without_price }

end App

namespace Geo

/-- A `city_locations` table row. -/
structure CityLocation where
  uf : String
  city : String
  latitude : ℚ
  longitude : ℚ
deriving Repr, DecidableEq

/-- The `lojas` columns read by `resolve_city_centroid`. -/
structure GeoStore where
  uf : Option String
  cidade : Option String
  lat : Option ℚ
  lng : Option ℚ
deriving Repr, DecidableEq

/-- A resolved centroid. -/
structure LatLngQ where
  lat : ℚ
  lng : ℚ
deriving Repr, DecidableEq

/-- `_normalize_city`: `str.strip()`. -/
def normalize_city (city : String) : String := city.trim

/-- `_normalize_uf`: `str.strip().upper()`. -/
def normalize_uf (uf : String) : String := uf.trim.toUpper

/-- `resolve_city_centroid`, parameterized by the accent/case-folding key
`city_key` (the composite `_normalize_city_key`: NFKD-normalize, strip
combining marks, casefold — a platform Unicode routine kept abstract here).
The two tables are the query inputs in row order. -/
def resolve_city_centroid (city_key : String → String) (cityLocs : List CityLocation)
    (storesT : List GeoStore) (uf city : Option String) : Option LatLngQ :=
  let nuf := normalize_uf (uf.getD "")
  let ncity := normalize_city (city.getD "")
  if nuf = "" ∨ ncity = "" then none
  else
    match cityLocs.find? (fun r => r.uf == nuf && r.city == ncity) with
    | some row => some ⟨row.latitude, row.longitude⟩
    | none =>
        let wanted := city_key ncity
        match (cityLocs.filter (fun r => r.uf == nuf)).find?
            (fun cand => city_key cand.city == wanted) with
        | some cand => some ⟨cand.latitude, cand.longitude⟩
        | none =>
            let stores1 := storesT.filter (fun s =>
              s.uf == some nuf && s.cidade == some ncity && s.lat.isSome && s.lng.isSome)
            if stores1 = [] then
              let all_stores := storesT.filter (fun s =>
                s.uf == some nuf && s.cidade.isSome && s.lat.isSome && s.lng.isSome)
              let tolerant := all_stores.filter
                (fun s => city_key (s.cidade.getD "") == wanted)
              if tolerant = [] then none
              else
                some ⟨(tolerant.map (fun s => s.lat.getD 0)).sum / (tolerant.length : ℚ),
                      (tolerant.map (fun s => s.lng.getD 0)).sum / (tolerant.length : ℚ)⟩
            else
              some ⟨(stores1.map (fun s => s.lat.getD 0)).sum / (stores1.length : ℚ),
                    (stores1.map (fun s => s.lng.getD 0)).sum / (stores1.length : ℚ)⟩

/-- Stage 1 of `resolve_city_centroid` (lines 57–62): exact `(uf, city)`
match in `city_locations`. -/
def centroid_step1 (cityLocs : List CityLocation) (nuf ncity : String) :
    Option LatLngQ :=
  (cityLocs.find? (fun r => r.uf == nuf && r.city == ncity)).map
    (fun row => ⟨row.latitude, row.longitude⟩)

/-- Stage 2 (lines 64–70): accent/case-tolerant city match within the same
`uf`. -/
def centroid_step2 (city_key : String → String) (cityLocs : List CityLocation)
    (nuf ncity : String) : Option LatLngQ :=
  ((cityLocs.filter (fun r => r.uf == nuf)).find?
      (fun cand => city_key cand.city == city_key ncity)).map
    (fun cand => ⟨cand.latitude, cand.longitude⟩)

/-- Stage 3 (lines 72–95, exact branch): average of the coordinates of the
stores matching `uf`/`city` exactly. -/
def centroid_step3 (storesT : List GeoStore) (nuf ncity : String) :
    Option LatLngQ :=
  let stores1 := storesT.filter (fun s =>
    s.uf == some nuf && s.cidade == some ncity && s.lat.isSome && s.lng.isSome)
  if stores1 = [] then none
  else
    some ⟨(stores1.map (fun s => s.lat.getD 0)).sum / (stores1.length : ℚ),
          (stores1.map (fun s => s.lng.getD 0)).sum / (stores1.length : ℚ)⟩

/-- Stage 4 (lines 78–95, tolerant branch): average of the coordinates of the
same-`uf` stores whose folded city matches. -/
def centroid_step4 (city_key : String → String) (storesT : List GeoStore)
    (nuf ncity : String) : Option LatLngQ :=
  let all_stores := storesT.filter (fun s =>
    s.uf == some nuf && s.cidade.isSome && s.lat.isSome && s.lng.isSome)
  let tolerant := all_stores.filter
    (fun s => city_key (s.cidade.getD "") == city_key ncity)
  if tolerant = [] then none
  else
    some ⟨(tolerant.map (fun s => s.lat.getD 0)).sum / (tolerant.length : ℚ),
          (tolerant.map (fun s => s.lng.getD 0)).sum / (tolerant.length : ℚ)⟩

/-- A latitude/longitude point with real coordinates, for the trigonometric
distance. -/
structure LatLngR where
  lat : ℝ
  lng : ℝ

/-- `math.radians`. -/
noncomputable def radians (d : ℝ) : ℝ := d * (Real.pi / 180)

/-- `haversine_km` of `city_location.py`: great-circle distance on a sphere of
radius 6371 km (floats modelled by `ℝ`). -/
noncomputable def haversine_km (a b : LatLngR) : ℝ :=
  let r : ℝ := 6371
  let lat1 := radians a.lat
  let lat2 := radians b.lat
  let dlat := lat2 - lat1
  let dlng := radians (b.lng - a.lng)
  let sin_dlat := Real.sin (dlat / 2)
  let sin_dlng := Real.sin (dlng / 2)
  let h := sin_dlat * sin_dlat + Real.cos lat1 * Real.cos lat2 * sin_dlng * sin_dlng
  2 * r * Real.arcsin (Real.sqrt h)

end Geo

/-! ## Concrete example inputs used by counterexamples and witnesses -/

namespace Ex

/-- A one-unit generic-optimizer offer for `item` at `store`. -/
def gOffer (item store : Nat) (price : ℚ) : Gen.ItemPrice :=
  { item_id := item, canonical_id := item, store_id := store,
    store_name := "S" ++ toString store, price := price, quantity := 1,
    subtotal := price }

/-- A one-unit app-optimizer offer for `item` at `store`. -/
def aOffer (item store : Nat) (price : ℚ) : App.ItemPrice :=
  { item_id := item, canonical_id := item, store_id := store,
    store_name := "S" ++ toString store, price := price, price_date := 0,
    quantity := 1, subtotal := price }

/-- Two list items. -/
def items2 : List Gen.SLItem := [⟨1, 1, 1⟩, ⟨2, 2, 1⟩]

/-- Five list items. -/
def items5 : List Gen.SLItem := [⟨1, 1, 1⟩, ⟨2, 2, 1⟩, ⟨3, 3, 1⟩, ⟨4, 4, 1⟩, ⟨5, 5, 1⟩]

/-- Item 1 priced only at store 1, item 2 priced only at store 2. -/
def ipsTwoSingle : List Gen.ItemPrice := [gOffer 1 1 10, gOffer 2 2 5]

/-- Five items, each cheapest at its own store 1–5; store 6 carries everything
at price 2; stores 1–4 also carry item 5 at price 100. -/
def ipsRedistr : List Gen.ItemPrice :=
  [gOffer 1 1 1, gOffer 1 6 2, gOffer 2 2 1, gOffer 2 6 2, gOffer 3 3 1,
   gOffer 3 6 2, gOffer 4 4 1, gOffer 4 6 2, gOffer 5 5 1, gOffer 5 6 2,
   gOffer 5 1 100, gOffer 5 2 100, gOffer 5 3 100, gOffer 5 4 100]

/-- Five items, each cheapest at its own store 1–5; store 6 carries everything
at price 2. -/
def ipsOverflow : List Gen.ItemPrice :=
  [gOffer 1 1 1, gOffer 1 6 2, gOffer 2 2 1, gOffer 2 6 2, gOffer 3 3 1,
   gOffer 3 6 2, gOffer 4 4 1, gOffer 4 6 2, gOffer 5 5 1, gOffer 5 6 2]

/-- Price history for the fallback query: store 10 once sold product 1 at 5
but its latest observation is 10; store 20's latest is 8. -/
def fbRows : List App.PriceRow := [⟨1, 10, 5, 1⟩, ⟨1, 10, 10, 2⟩, ⟨1, 20, 8, 1⟩]

/-- The two stores of the fallback example. -/
def fbStores : List App.Store := [⟨10, none, "A", "", ""⟩, ⟨20, none, "B", "", ""⟩]

/-- Spec scenario price table: 2 items, 2 stores. -/
def ipsScenario : List Gen.ItemPrice :=
  [gOffer 1 1 10, gOffer 1 2 8, gOffer 2 1 5, gOffer 2 2 9]

/-- App-optimizer offers of the spec scenario. -/
def aipsScenario : List App.ItemPrice :=
  [aOffer 1 1 10, aOffer 1 2 8, aOffer 2 1 5, aOffer 2 2 9]

/-- One app list item. -/
def appItems1 : List App.AppItem := [⟨7, 1, 1⟩]

end Ex

/-! ## Lemmas about the association-list primitives -/

section BasicLemmas

variable {α β : Type}

theorem pushBucket_flatMap (k : Nat) (a : α) (m : List (Nat × List α)) :
    ((pushBucket k a m).flatMap (·.2)).Perm (a :: m.flatMap (·.2)) := by
  induction m with
  | nil => simp [pushBucket]
  | cons hd t ih =>
      obtain ⟨k', xs⟩ := hd
      by_cases hk : k' = k
      · simp only [pushBucket, if_pos hk, List.flatMap_cons]
        have h1 : ((xs ++ [a]) ++ t.flatMap (·.2)).Perm ((a :: xs) ++ t.flatMap (·.2)) :=
          (List.perm_append_singleton a xs).append_right _
        exact h1
      · simp only [pushBucket, if_neg hk, List.flatMap_cons]
        have h1 : (xs ++ (pushBucket k a t).flatMap (·.2)).Perm
            (xs ++ (a :: t.flatMap (·.2))) := ih.append_left xs
        exact h1.trans List.perm_middle

theorem pushBucket_keys_mem (k : Nat) (a : α) (m : List (Nat × List α))
    (h : k ∈ m.map (·.1)) : (pushBucket k a m).map (·.1) = m.map (·.1) := by
  induction m with
  | nil => simp at h
  | cons hd t ih =>
      obtain ⟨k', xs⟩ := hd
      by_cases hk : k' = k
      · simp [pushBucket, hk]
      · simp only [List.map_cons, List.mem_cons] at h
        rcases h with h | h
        · exact absurd h.symm hk
        · simp [pushBucket, hk, ih h]

theorem pushBucket_keys_not_mem (k : Nat) (a : α) (m : List (Nat × List α))
    (h : k ∉ m.map (·.1)) : (pushBucket k a m).map (·.1) = m.map (·.1) ++ [k] := by
  induction m with
  | nil => simp [pushBucket]
  | cons hd t ih =>
      obtain ⟨k', xs⟩ := hd
      simp only [List.map_cons, List.mem_cons] at h
      push_neg at h
      have hk : ¬ (k' = k) := fun hh => h.1 hh.symm
      simp [pushBucket, hk, ih h.2]

theorem pushBucket_keys_sub (k : Nat) (a : α) (m : List (Nat × List α)) :
    ∀ x ∈ (pushBucket k a m).map (·.1), x ∈ m.map (·.1) ∨ x = k := by
  intro x hx
  by_cases h : k ∈ m.map (·.1)
  · rw [pushBucket_keys_mem k a m h] at hx; exact Or.inl hx
  · rw [pushBucket_keys_not_mem k a m h] at hx
    rcases List.mem_append.1 hx with hx | hx
    · exact Or.inl hx
    · simp at hx; exact Or.inr hx

theorem pushBucket_keys_nodup (k : Nat) (a : α) (m : List (Nat × List α))
    (h : (m.map (·.1)).Nodup) : ((pushBucket k a m).map (·.1)).Nodup := by
  by_cases hk : k ∈ m.map (·.1)
  · rw [pushBucket_keys_mem k a m hk]; exact h
  · rw [pushBucket_keys_not_mem k a m hk]
    refine List.Nodup.append h (List.nodup_singleton k) ?_
    intro x hx hxk
    simp only [List.mem_singleton] at hxk
    subst hxk
    exact hk hx

theorem pushBucket_content (k : Nat) (a : α) (m : List (Nat × List α))
    (P : Nat → α → Prop) (hm : ∀ g ∈ m, ∀ x ∈ g.2, P g.1 x) (ha : P k a) :
    ∀ g ∈ pushBucket k a m, ∀ x ∈ g.2, P g.1 x := by
  induction m with
  | nil =>
      intro g hg x hx
      simp [pushBucket] at hg
      subst hg; simp at hx; subst hx; exact ha
  | cons hd t ih =>
      obtain ⟨k', xs⟩ := hd
      by_cases hk : k' = k
      · intro g hg x hx
        simp only [pushBucket, if_pos hk, List.mem_cons] at hg
        rcases hg with hg | hg
        · subst hg
          rcases List.mem_append.1 hx with hx | hx
          · exact hm (k', xs) (List.mem_cons_self _ _) x hx
          · simp at hx; subst hx; rw [hk]; exact ha
        · exact hm g (List.mem_cons_of_mem _ hg) x hx
      · intro g hg x hx
        simp only [pushBucket, if_neg hk, List.mem_cons] at hg
        rcases hg with hg | hg
        · subst hg; exact hm (k', xs) (List.mem_cons_self _ _) x hx
        · exact ih (fun g hg => hm g (List.mem_cons_of_mem _ hg)) g hg x hx

theorem lookup?_nil (k : Nat) : lookup? (β := β) k [] = none := rfl

theorem lookup?_cons (k : Nat) (e : Nat × β) (m : List (Nat × β)) :
    lookup? k (e :: m) = if e.1 = k then some e.2 else lookup? k m := by
  by_cases h : e.1 = k <;> simp [lookup?, List.find?_cons, h]

theorem lookup?_append_right (k : Nat) (m : List (Nat × β)) (e : Nat × β)
    (h : lookup? k m = none) :
    lookup? k (m ++ [e]) = if e.1 = k then some e.2 else none := by
  induction m with
  | nil => simp [lookup?_cons, lookup?_nil]
  | cons hd t ih =>
      rw [lookup?_cons] at h
      by_cases hk : hd.1 = k
      · simp [hk] at h
      · rw [List.cons_append, lookup?_cons, if_neg hk]
        exact ih (by simpa [hk] using h)

theorem lookup?_append_left (k : Nat) (m : List (Nat × β)) (l : List (Nat × β)) (v : β)
    (h : lookup? k m = some v) : lookup? k (m ++ l) = some v := by
  induction m with
  | nil => simp [lookup?_nil] at h
  | cons hd t ih =>
      rw [lookup?_cons] at h
      by_cases hk : hd.1 = k
      · rw [List.cons_append, lookup?_cons, if_pos hk]; simpa [hk] using h
      · rw [List.cons_append, lookup?_cons, if_neg hk]
        exact ih (by simpa [hk] using h)

theorem lookup?_setVal_self (k : Nat) (v : β) (m : List (Nat × β)) :
    lookup? k (setVal k v m) = some v := by
  induction m with
  | nil => simp [setVal, lookup?_cons, lookup?_nil]
  | cons hd t ih =>
      obtain ⟨k', v'⟩ := hd
      by_cases hk : k' = k
      · simp [setVal, hk, lookup?_cons]
      · simp [setVal, hk, lookup?_cons, ih]

theorem lookup?_setVal_ne (k k' : Nat) (v : β) (m : List (Nat × β)) (h : k' ≠ k) :
    lookup? k (setVal k' v m) = lookup? k m := by
  induction m with
  | nil => simp [setVal, lookup?_cons, lookup?_nil, h]
  | cons hd t ih =>
      obtain ⟨k'', v''⟩ := hd
      by_cases hk : k'' = k'
      · subst hk; simp [setVal, lookup?_cons, h, ih]
      · simp only [setVal, if_neg hk, lookup?_cons]
        by_cases hk2 : k'' = k
        · simp [hk2]
        · simp [hk2, ih]

theorem lookup?_isSome_iff (k : Nat) (m : List (Nat × β)) :
    (lookup? k m).isSome ↔ k ∈ m.map (·.1) := by
  induction m with
  | nil => simp [lookup?_nil]
  | cons hd t ih =>
      rw [lookup?_cons]
      by_cases hk : hd.1 = k
      · simp [hk]
      · simpa [hk, Ne.symm hk] using ih

theorem lookup?_eq_none_iff (k : Nat) (m : List (Nat × β)) :
    lookup? k m = none ↔ k ∉ m.map (·.1) := by
  rw [← lookup?_isSome_iff, Option.isSome_iff_ne_none]; tauto

theorem lookup?_mem (k : Nat) (m : List (Nat × β)) (v : β) (h : lookup? k m = some v) :
    (k, v) ∈ m := by
  induction m with
  | nil => simp [lookup?_nil] at h
  | cons hd t ih =>
      rw [lookup?_cons] at h
      by_cases hk : hd.1 = k
      · simp only [if_pos hk] at h
        have : hd = (k, v) := by
          obtain ⟨a, b⟩ := hd
          simp only at hk
          simp only [Option.some_inj] at h
          simp [hk, h]
        rw [← this]
        exact List.mem_cons_self _ _
      · simp only [if_neg hk] at h
        exact List.mem_cons_of_mem _ (ih h)

theorem mem_lookup?_of_nodup (m : List (Nat × β)) (e : Nat × β)
    (hn : (m.map (·.1)).Nodup) (h : e ∈ m) : lookup? e.1 m = some e.2 := by
  induction m with
  | nil => simp at h
  | cons hd t ih =>
      simp only [List.map_cons, List.nodup_cons] at hn
      rcases List.mem_cons.1 h with h | h
      · subst h; simp [lookup?_cons]
      · have hne : hd.1 ≠ e.1 := by
          intro hcontra
          exact hn.1 (hcontra ▸ List.mem_map_of_mem (·.1) h)
        rw [lookup?_cons, if_neg hne]
        exact ih hn.2 h

theorem firstSome_eq_none {α : Type} (a b : Option α) :
    firstSome a b = none ↔ a = none ∧ b = none := by
  cases a <;> simp [firstSome]

end BasicLemmas

section GroupLemmas

variable {α : Type}

theorem groupByKey_fold_content (key : α → Nat) (l : List α) (m0 : List (Nat × List α))
    (h0 : ∀ g ∈ m0, ∀ x ∈ g.2, key x = g.1) :
    ∀ g ∈ l.foldl (fun m a => pushBucket (key a) a m) m0, ∀ x ∈ g.2, key x = g.1 := by
  induction l generalizing m0 with
  | nil => exact h0
  | cons a t ih =>
      exact ih (pushBucket (key a) a m0)
        (pushBucket_content (key a) a m0 (fun k x => key x = k) h0 rfl)

theorem groupByKey_content (key : α → Nat) (l : List α) :
    ∀ g ∈ groupByKey key l, ∀ x ∈ g.2, key x = g.1 :=
  groupByKey_fold_content key l [] (by simp)

theorem groupByKey_fold_nodup (key : α → Nat) (l : List α) (m0 : List (Nat × List α))
    (h0 : (m0.map (·.1)).Nodup) :
    ((l.foldl (fun m a => pushBucket (key a) a m) m0).map (·.1)).Nodup := by
  induction l generalizing m0 with
  | nil => exact h0
  | cons a t ih => exact ih _ (pushBucket_keys_nodup (key a) a m0 h0)

theorem groupByKey_keys_nodup (key : α → Nat) (l : List α) :
    ((groupByKey key l).map (·.1)).Nodup :=
  groupByKey_fold_nodup key l [] (by simp)

theorem groupByKey_fold_perm (key : α → Nat) (l : List α) (m0 : List (Nat × List α)) :
    ((l.foldl (fun m a => pushBucket (key a) a m) m0).flatMap (·.2)).Perm
      (m0.flatMap (·.2) ++ l) := by
  induction l generalizing m0 with
  | nil => simp
  | cons a t ih =>
      have h1 := ih (pushBucket (key a) a m0)
      have h2 : ((pushBucket (key a) a m0).flatMap (·.2) ++ t).Perm
          ((a :: m0.flatMap (·.2)) ++ t) :=
        (pushBucket_flatMap (key a) a m0).append_right t
      refine h1.trans (h2.trans ?_)
      exact List.perm_middle.symm

theorem groupByKey_flatMap_perm (key : α → Nat) (l : List α) :
    ((groupByKey key l).flatMap (·.2)).Perm l := by
  have := groupByKey_fold_perm key l []
  simpa [groupByKey] using this

theorem pushBucket_nonempty (k : Nat) (a : α) (m : List (Nat × List α))
    (h : ∀ g ∈ m, g.2 ≠ []) : ∀ g ∈ pushBucket k a m, g.2 ≠ [] := by
  induction m with
  | nil =>
      intro g hg
      simp [pushBucket] at hg
      subst hg; simp
  | cons hd t ih =>
      obtain ⟨k', xs⟩ := hd
      intro g hg
      by_cases hk : k' = k
      · simp only [pushBucket, if_pos hk, List.mem_cons] at hg
        rcases hg with hg | hg
        · subst hg; simp
        · exact h g (List.mem_cons_of_mem _ hg)
      · simp only [pushBucket, if_neg hk, List.mem_cons] at hg
        rcases hg with hg | hg
        · subst hg; exact h (k', xs) (List.mem_cons_self _ _)
        · exact ih (fun g hg => h g (List.mem_cons_of_mem _ hg)) g hg

theorem groupByKey_buckets_nonempty (key : α → Nat) (l : List α) :
    ∀ g ∈ groupByKey key l, g.2 ≠ [] := by
  have main : ∀ (l : List α) (m0 : List (Nat × List α)), (∀ g ∈ m0, g.2 ≠ []) →
      ∀ g ∈ l.foldl (fun m a => pushBucket (key a) a m) m0, g.2 ≠ [] := by
    intro l
    induction l with
    | nil => intro m0 h0; exact h0
    | cons a t ih => intro m0 h0; exact ih _ (pushBucket_nonempty (key a) a m0 h0)
  exact main l [] (by simp)

theorem groupByKey_lookup_of_mem (key : α → Nat) (l : List α) (x : α) (hx : x ∈ l) :
    ∃ g, lookup? (key x) (groupByKey key l) = some g ∧ x ∈ g := by
  have hbag : x ∈ (groupByKey key l).flatMap (·.2) :=
    (groupByKey_flatMap_perm key l).mem_iff.2 hx
  obtain ⟨g, hg, hxg⟩ := List.mem_flatMap.1 hbag
  have hkey : key x = g.1 := groupByKey_content key l g hg x hxg
  refine ⟨g.2, ?_, hxg⟩
  have := mem_lookup?_of_nodup (groupByKey key l) g (groupByKey_keys_nodup key l) hg
  rw [hkey]
  exact this

end GroupLemmas

namespace Gen

theorem minByPrice_aux (l : List ItemPrice) (q : ItemPrice) :
    ∃ r, (l.foldl
        (fun acc p =>
          match acc with
          | none => some p
          | some q => if p.price < q.price then some p else acc)
        (some q)) = some r ∧ (r = q ∨ r ∈ l) ∧ r.price ≤ q.price ∧
        ∀ x ∈ l, r.price ≤ x.price := by
  induction l generalizing q with
  | nil => exact ⟨q, rfl, Or.inl rfl, le_refl _, by simp⟩
  | cons p t ih =>
      by_cases hp : p.price < q.price
      · obtain ⟨r, hr, hmem, hle, hall⟩ := ih p
        refine ⟨r, ?_, ?_, ?_, ?_⟩
        · simpa [hp] using hr
        · rcases hmem with h | h
          · exact Or.inr (h ▸ List.mem_cons_self _ _)
          · exact Or.inr (List.mem_cons_of_mem _ h)
        · exact le_trans hle (le_of_lt hp)
        · intro x hx
          rcases List.mem_cons.1 hx with h | h
          · exact h ▸ hle
          · exact hall x h
      · obtain ⟨r, hr, hmem, hle, hall⟩ := ih q
        refine ⟨r, ?_, ?_, hle, ?_⟩
        · simpa [hp] using hr
        · rcases hmem with h | h
          · exact Or.inl h
          · exact Or.inr (List.mem_cons_of_mem _ h)
        · intro x hx
          rcases List.mem_cons.1 hx with h | h
          · exact h ▸ le_trans hle (not_lt.1 hp)
          · exact hall x h

theorem minByPrice_spec (l : List ItemPrice) (p : ItemPrice) (h : minByPrice l = some p) :
    p ∈ l ∧ ∀ q ∈ l, p.price ≤ q.price := by
  cases l with
  | nil => simp [minByPrice] at h
  | cons a t =>
      obtain ⟨r, hr, hmem, hle, hall⟩ := minByPrice_aux t a
      rw [minByPrice, List.foldl_cons] at h
      rw [hr] at h
      obtain rfl : r = p := by simpa using h
      constructor
      · rcases hmem with h | h
        · exact h ▸ List.mem_cons_self _ _
        · exact List.mem_cons_of_mem _ h
      · intro q hq
        rcases List.mem_cons.1 hq with h | h
        · exact h ▸ hle
        · exact hall q h

theorem minByPrice_eq_none_iff (l : List ItemPrice) : minByPrice l = none ↔ l = [] := by
  cases l with
  | nil => simp [minByPrice]
  | cons a t =>
      obtain ⟨r, hr, _, _, _⟩ := minByPrice_aux t a
      have e : minByPrice (a :: t) = some r := by
        rw [minByPrice, List.foldl_cons]; exact hr
      simp [e]

theorem minByPrice_isSome_of_ne (l : List ItemPrice) (h : l ≠ []) :
    ∃ p, minByPrice l = some p := by
  cases l with
  | nil => exact absurd rfl h
  | cons a t =>
      obtain ⟨r, hr, _, _, _⟩ := minByPrice_aux t a
      exact ⟨r, by rw [minByPrice, List.foldl_cons]; exact hr⟩

theorem maxByPrice_aux (l : List ItemPrice) (q : ItemPrice) :
    ∃ r, (l.foldl
        (fun acc p =>
          match acc with
          | none => some p
          | some q => if q.price < p.price then some p else acc)
        (some q)) = some r ∧ (r = q ∨ r ∈ l) ∧ q.price ≤ r.price ∧
        ∀ x ∈ l, x.price ≤ r.price := by
  induction l generalizing q with
  | nil => exact ⟨q, rfl, Or.inl rfl, le_refl _, by simp⟩
  | cons p t ih =>
      by_cases hp : q.price < p.price
      · obtain ⟨r, hr, hmem, hle, hall⟩ := ih p
        refine ⟨r, ?_, ?_, ?_, ?_⟩
        · simpa [hp] using hr
        · rcases hmem with h | h
          · exact Or.inr (h ▸ List.mem_cons_self _ _)
          · exact Or.inr (List.mem_cons_of_mem _ h)
        · exact le_trans (le_of_lt hp) hle
        · intro x hx
          rcases List.mem_cons.1 hx with h | h
          · exact h ▸ hle
          · exact hall x h
      · obtain ⟨r, hr, hmem, hle, hall⟩ := ih q
        refine ⟨r, ?_, ?_, hle, ?_⟩
        · simpa [hp] using hr
        · rcases hmem with h | h
          · exact Or.inl h
          · exact Or.inr (List.mem_cons_of_mem _ h)
        · intro x hx
          rcases List.mem_cons.1 hx with h | h
          · exact h ▸ le_trans (not_lt.1 hp) hle
          · exact hall x h

theorem choiceFold_flatMap (pbi : List (Nat × List ItemPrice))
    (choice : Nat × List ItemPrice → Option ItemPrice) :
    ((choiceFold pbi choice).flatMap (·.2)).Perm (pbi.filterMap choice) := by
  have main : ∀ (l : List (Nat × List ItemPrice)) (m0 : List (Nat × List ItemPrice)),
      ((l.foldl (fun m g =>
          match choice g with
          | some p => pushBucket p.store_id p m
          | none => m) m0).flatMap (·.2)).Perm
        (m0.flatMap (·.2) ++ l.filterMap choice) := by
    intro l
    induction l with
    | nil => simp
    | cons g t ih =>
        intro m0
        cases hc : choice g with
        | none => simpa [hc] using ih m0
        | some p =>
            simp only [List.foldl_cons, hc, List.filterMap_cons]
            have h1 := ih (pushBucket p.store_id p m0)
            refine h1.trans ?_
            have h2 : ((pushBucket p.store_id p m0).flatMap (·.2) ++ t.filterMap choice).Perm
                ((p :: m0.flatMap (·.2)) ++ t.filterMap choice) :=
              (pushBucket_flatMap p.store_id p m0).append_right _
            exact h2.trans List.perm_middle.symm
  simpa [choiceFold] using main pbi []

theorem choiceFold_keys_nodup (pbi : List (Nat × List ItemPrice))
    (choice : Nat × List ItemPrice → Option ItemPrice) :
    ((choiceFold pbi choice).map (·.1)).Nodup := by
  have main : ∀ (l : List (Nat × List ItemPrice)) (m0 : List (Nat × List ItemPrice)),
      ((m0.map (·.1)).Nodup) →
      ((l.foldl (fun m g =>
          match choice g with
          | some p => pushBucket p.store_id p m
          | none => m) m0).map (·.1)).Nodup := by
    intro l
    induction l with
    | nil => intro m0 h; exact h
    | cons g t ih =>
        intro m0 h
        cases hc : choice g with
        | none => simpa [hc] using ih m0 h
        | some p =>
            simp only [List.foldl_cons, hc]
            exact ih _ (pushBucket_keys_nodup p.store_id p m0 h)
  simpa [choiceFold] using main pbi [] (by simp)

theorem choiceFold_keys_sub (pbi : List (Nat × List ItemPrice))
    (choice : Nat × List ItemPrice → Option ItemPrice) :
    ∀ s ∈ (choiceFold pbi choice).map (·.1),
      ∃ q ∈ pbi.filterMap choice, q.store_id = s := by
  have main : ∀ (l : List (Nat × List ItemPrice)) (m0 : List (Nat × List ItemPrice)),
      ∀ s ∈ (l.foldl (fun m g =>
          match choice g with
          | some p => pushBucket p.store_id p m
          | none => m) m0).map (·.1),
        s ∈ m0.map (·.1) ∨ ∃ q ∈ l.filterMap choice, q.store_id = s := by
    intro l
    induction l with
    | nil => intro m0 s hs; exact Or.inl hs
    | cons g t ih =>
        intro m0 s hs
        cases hc : choice g with
        | none =>
            rw [List.foldl_cons, hc] at hs
            rcases ih m0 s hs with h | ⟨q, hq, hqs⟩
            · exact Or.inl h
            · exact Or.inr ⟨q, by simp [hc, hq], hqs⟩
        | some p =>
            rw [List.foldl_cons, hc] at hs
            rcases ih (pushBucket p.store_id p m0) s hs with h | ⟨q, hq, hqs⟩
            · rcases pushBucket_keys_sub p.store_id p m0 s h with h2 | h2
              · exact Or.inl h2
              · exact Or.inr ⟨p, by simp [hc], h2.symm⟩
            · exact Or.inr ⟨q, by simp [hc, hq], hqs⟩
  intro s hs
  rcases main pbi [] s (by simpa [choiceFold] using hs) with h | h
  · simp at h
  · exact h

theorem filterMap_item_ids_sublist (pbi : List (Nat × List ItemPrice))
    (choice : Nat × List ItemPrice → Option ItemPrice)
    (hok : ∀ g ∈ pbi, ∀ p, choice g = some p → p.item_id = g.1) :
    ((pbi.filterMap choice).map (·.item_id)).Sublist (pbi.map (·.1)) := by
  induction pbi with
  | nil => simp
  | cons g t ih =>
      have iht := ih (fun g' hg' => hok g' (List.mem_cons_of_mem _ hg'))
      cases hc : choice g with
      | none =>
          simp only [List.filterMap_cons, hc, List.map_cons]
          exact iht.cons g.1
      | some p =>
          have hid : p.item_id = g.1 := hok g (List.mem_cons_self _ _) p hc
          simp only [List.filterMap_cons, hc, List.map_cons, hid]
          exact iht.cons₂ g.1

theorem choiceFold_chosen_mem (pbi : List (Nat × List ItemPrice))
    (choice : Nat × List ItemPrice → Option ItemPrice)
    (hok : ∀ g ∈ pbi, ∀ p, choice g = some p → p ∈ g.2) :
    ∀ q ∈ pbi.filterMap choice, ∃ g ∈ pbi, q ∈ g.2 := by
  intro q hq
  obtain ⟨g, hg, hcq⟩ := List.mem_filterMap.1 hq
  exact ⟨g, hg, hok g hg q hcq⟩

theorem best_in_top_spec (top : List Nat) (prices : List ItemPrice) (p : ItemPrice)
    (h : best_in_top top prices = some p) :
    p ∈ prices ∧ top.contains p.store_id = true := by
  have main : ∀ (l : List ItemPrice) (q : ItemPrice),
      q ∈ prices → top.contains q.store_id = true →
      ∀ r, l.foldl
        (fun b ip =>
          if top.contains ip.store_id then
            match b with
            | none => some ip
            | some cur => if ip.price < cur.price then some ip else b
          else b)
        (some q) = some r →
      (∀ x ∈ l, x ∈ prices) → r ∈ prices ∧ top.contains r.store_id = true := by
    intro l
    induction l with
    | nil =>
        intro q hq hqc r hr _
        simp at hr
        exact hr ▸ ⟨hq, hqc⟩
    | cons x t ih =>
        intro q hq hqc r hr hsub
        by_cases hx : top.contains x.store_id = true
        · by_cases hlt : x.price < q.price
          · rw [List.foldl_cons] at hr
            simp only [hx, if_true, hlt, if_true] at hr
            exact ih x (hsub x (List.mem_cons_self _ _)) hx r hr
              (fun y hy => hsub y (List.mem_cons_of_mem _ hy))
          · rw [List.foldl_cons] at hr
            simp only [hx, if_true, hlt, if_false] at hr
            exact ih q hq hqc r hr (fun y hy => hsub y (List.mem_cons_of_mem _ hy))
        · rw [List.foldl_cons] at hr
          rw [Bool.not_eq_true] at hx
          simp only [hx, Bool.false_eq_true, if_false] at hr
          exact ih q hq hqc r hr (fun y hy => hsub y (List.mem_cons_of_mem _ hy))
  have start : ∀ (l : List ItemPrice),
      (∀ x ∈ l, x ∈ prices) →
      ∀ r, l.foldl
        (fun b ip =>
          if top.contains ip.store_id then
            match b with
            | none => some ip
            | some cur => if ip.price < cur.price then some ip else b
          else b)
        none = some r → r ∈ prices ∧ top.contains r.store_id = true := by
    intro l
    induction l with
    | nil => intro _ r hr; simp at hr
    | cons x t ih =>
        intro hsub r hr
        by_cases hx : top.contains x.store_id = true
        · rw [List.foldl_cons] at hr
          simp only [hx, if_true] at hr
          exact main t x (hsub x (List.mem_cons_self _ _)) hx r hr
            (fun y hy => hsub y (List.mem_cons_of_mem _ hy))
        · rw [List.foldl_cons] at hr
          rw [Bool.not_eq_true] at hx
          simp only [hx, Bool.false_eq_true, if_false] at hr
          exact ih (fun y hy => hsub y (List.mem_cons_of_mem _ hy)) r hr
  exact start prices (fun x hx => hx) p h

/-- The greedy first pass is a per-item choice fold (choice: head of the
sorted offer list). -/
theorem firstPass_fst (pbi2 : List (Nat × List ItemPrice)) :
    (first_pass pbi2).1 = choiceFold pbi2 (fun g => g.2.head?) := by
  rw [first_pass]
  have main : ∀ (l : List (Nat × List ItemPrice)) (m0 : List (Nat × List ItemPrice))
      (ia0 : List (Nat × ItemPrice)),
      (l.foldl
        (fun (acc : List (Nat × List ItemPrice) × List (Nat × ItemPrice)) g =>
          match g.2 with
          | [] => acc
          | best :: _ => (pushBucket best.store_id best acc.1, acc.2 ++ [(g.1, best)]))
        (m0, ia0)).1
      = l.foldl
          (fun m g =>
            match g.2.head? with
            | some p => pushBucket p.store_id p m
            | none => m) m0 := by
    intro l
    induction l with
    | nil => intro m0 ia0; rfl
    | cons g t ih =>
        intro m0 ia0
        cases hg : g.2 with
        | nil => simp only [List.foldl_cons, hg]; exact ih m0 ia0
        | cons b bt => simp only [List.foldl_cons, hg, List.head?_cons]; exact ih _ _
  rw [main pbi2 [] []]; rfl

/-- The redistribution loop's allocation component is a per-item choice fold
(cheapest offer within the selected stores, else the cheapest offer
overall). -/
theorem redistribute_fst (pbi : List (Nat × List ItemPrice))
    (ia : List (Nat × ItemPrice)) (m : Nat) :
    (redistribute pbi ia m).1 = choiceFold pbi (fun g =>
      match best_in_top (top_set_of pbi ia m) g.2 with
      | some b => some b
      | none => g.2.head?) := by
  have main : ∀ (l : List (Nat × List ItemPrice)) (m0 : List (Nat × List ItemPrice))
      (ia0 : List (Nat × ItemPrice)) (fl : Bool),
      (l.foldl
        (fun (acc : List (Nat × List ItemPrice) × List (Nat × ItemPrice) × Bool) g =>
          match best_in_top (top_set_of pbi ia m) g.2 with
          | some best =>
              (pushBucket best.store_id best acc.1, acc.2.1 ++ [(g.1, best)], acc.2.2)
          | none =>
              match g.2 with
              | [] => acc
              | best :: _ =>
                  (pushBucket best.store_id best acc.1, acc.2.1 ++ [(g.1, best)],
                   acc.2.2 || !((top_set_of pbi ia m).contains best.store_id)))
        (m0, ia0, fl)).1
      = l.foldl
          (fun m' g =>
            match (match best_in_top (top_set_of pbi ia m) g.2 with
              | some b => some b
              | none => g.2.head?) with
            | some p => pushBucket p.store_id p m'
            | none => m') m0 := by
    intro l
    induction l with
    | nil => intro m0 ia0 fl; rfl
    | cons g t ih =>
        intro m0 ia0 fl
        cases hb : best_in_top (top_set_of pbi ia m) g.2 with
        | some best => simp only [List.foldl_cons, hb]; exact ih _ _ _
        | none =>
            cases hg : g.2 with
            | nil => simp only [List.foldl_cons, hb, hg]; exact ih m0 ia0 fl
            | cons b bt =>
                rw [hg] at hb
                simp only [List.foldl_cons, hg, hb, List.head?_cons]
                exact ih _ _ _
  rw [redistribute, main pbi [] [] _]; rfl

/-- If the redistribution loop ends with the overflow flag down, the required
stores fit the cap and every chosen offer sits in a selected store. -/
theorem redistribute_flag_false (pbi : List (Nat × List ItemPrice))
    (ia : List (Nat × ItemPrice)) (m : Nat)
    (h : (redistribute pbi ia m).2.2 = false) :
    ¬ (m < (required_stores pbi).length) ∧
      ∀ g ∈ pbi, ∀ p,
        (match best_in_top (top_set_of pbi ia m) g.2 with
          | some b => some b
          | none => g.2.head?) = some p →
        (top_set_of pbi ia m).contains p.store_id = true := by
  have main : ∀ (l : List (Nat × List ItemPrice)) (m0 : List (Nat × List ItemPrice))
      (ia0 : List (Nat × ItemPrice)) (fl : Bool),
      (l.foldl
        (fun (acc : List (Nat × List ItemPrice) × List (Nat × ItemPrice) × Bool) g =>
          match best_in_top (top_set_of pbi ia m) g.2 with
          | some best =>
              (pushBucket best.store_id best acc.1, acc.2.1 ++ [(g.1, best)], acc.2.2)
          | none =>
              match g.2 with
              | [] => acc
              | best :: _ =>
                  (pushBucket best.store_id best acc.1, acc.2.1 ++ [(g.1, best)],
                   acc.2.2 || !((top_set_of pbi ia m).contains best.store_id)))
        (m0, ia0, fl)).2.2 = false →
      fl = false ∧ ∀ g ∈ l, ∀ p,
        (match best_in_top (top_set_of pbi ia m) g.2 with
          | some b => some b
          | none => g.2.head?) = some p →
        (top_set_of pbi ia m).contains p.store_id = true := by
    intro l
    induction l with
    | nil => intro m0 ia0 fl hf; exact ⟨hf, by simp⟩
    | cons g t ih =>
        intro m0 ia0 fl hf
        cases hb : best_in_top (top_set_of pbi ia m) g.2 with
        | some best =>
            rw [List.foldl_cons, hb] at hf
            obtain ⟨hfl, hrest⟩ := ih _ _ _ hf
            refine ⟨hfl, ?_⟩
            intro g' hg' p hp
            rcases List.mem_cons.1 hg' with hg' | hg'
            · subst hg'
              rw [hb] at hp
              obtain rfl : best = p := by simpa using hp
              exact (best_in_top_spec _ _ _ hb).2
            · exact hrest g' hg' p hp
        | none =>
            cases hg : g.2 with
            | nil =>
                rw [List.foldl_cons, hb, hg] at hf
                obtain ⟨hfl, hrest⟩ := ih _ _ _ hf
                refine ⟨hfl, ?_⟩
                intro g' hg' p hp
                rcases List.mem_cons.1 hg' with hg' | hg'
                · subst hg'; rw [hb, hg] at hp; simp at hp
                · exact hrest g' hg' p hp
            | cons b bt =>
                rw [List.foldl_cons, hb, hg] at hf
                obtain ⟨hfl, hrest⟩ := ih _ _ _ hf
                rcases Bool.or_eq_false_iff.1 hfl with ⟨hfl2, hcontains⟩
                refine ⟨hfl2, ?_⟩
                intro g' hg' p hp
                rcases List.mem_cons.1 hg' with hg' | hg'
                · subst hg'
                  rw [hb, hg, List.head?_cons] at hp
                  obtain rfl : b = p := by simpa using hp
                  simpa using hcontains
                · exact hrest g' hg' p hp
  rw [redistribute] at h
  obtain ⟨hfl, hrest⟩ := main pbi [] [] _ h
  refine ⟨?_, hrest⟩
  simpa using hfl

theorem dedup_fold_length (l : List Nat) (acc : List Nat) :
    (l.foldl (fun ts s => if s ∈ ts then ts else ts ++ [s]) acc).length ≤
      acc.length + l.length := by
  induction l generalizing acc with
  | nil => simp
  | cons s t ih =>
      rw [List.foldl_cons]
      by_cases hs : s ∈ acc
      · simp only [if_pos hs]
        calc _ ≤ acc.length + t.length := ih acc
          _ ≤ acc.length + (s :: t).length := by
              simp only [List.length_cons]; omega
      · simp only [if_neg hs]
        calc _ ≤ (acc ++ [s]).length + t.length := ih _
          _ = acc.length + (s :: t).length := by
              simp only [List.length_append, List.length_cons, List.length_nil]; omega

theorem fill_fold_le (ranked : List Nat) (m : Nat) (acc : List Nat)
    (h : acc.length ≤ m) :
    (ranked.foldl
      (fun ts s => if m ≤ ts.length then ts else if s ∈ ts then ts else ts ++ [s])
      acc).length ≤ m := by
  induction ranked generalizing acc with
  | nil => exact h
  | cons s t ih =>
      rw [List.foldl_cons]
      by_cases hm : m ≤ acc.length
      · simp only [if_pos hm]; exact ih acc h
      · simp only [if_neg hm]
        by_cases hs : s ∈ acc
        · simp only [if_pos hs]; exact ih acc h
        · simp only [if_neg hs]
          exact ih _ (by simp; omega)

theorem top_stores_length (required ranked : List Nat) (m : Nat)
    (h : required.length ≤ m) : (top_stores required ranked m).length ≤ m := by
  rw [top_stores]
  refine fill_fold_le ranked m _ ?_
  calc _ ≤ (List.length ([] : List Nat)) + required.length := dedup_fold_length required []
    _ ≤ m := by simpa using h

theorem top_set_of_length (pbi : List (Nat × List ItemPrice))
    (ia : List (Nat × ItemPrice)) (m : Nat)
    (h : ¬ (m < (required_stores pbi).length)) :
    (top_set_of pbi ia m).length ≤ m := by
  rw [top_set_of]
  simp only [if_neg h]
  exact top_stores_length _ _ m (by omega)

theorem allocation_to_result_length (stores : List Store)
    (alloc : List (Nat × List ItemPrice)) :
    (allocation_to_result stores alloc).length ≤ alloc.length := by
  rw [allocation_to_result]
  calc (List.insertionSort _ _).length = _ := (List.perm_insertionSort _ _).length_eq
    _ ≤ alloc.length := List.length_filterMap_le _ _

theorem allocation_to_result_mem (stores : List Store)
    (alloc : List (Nat × List ItemPrice)) (a : StoreAllocation)
    (ha : a ∈ allocation_to_result stores alloc) :
    a.total = (a.items.map (·.subtotal)).sum ∧ ∃ g ∈ alloc, a.items = g.2 := by
  rw [allocation_to_result] at ha
  rw [List.mem_insertionSort] at ha
  obtain ⟨g, hg, hga⟩ := List.mem_filterMap.1 ha
  by_cases hne : g.2 = []
  · simp [hne] at hga
  · simp only [if_neg hne] at hga
    have heq := Option.some_inj.1 hga
    subst heq
    exact ⟨rfl, g, hg, rfl⟩

theorem allocation_to_result_items_perm (stores : List Store)
    (alloc : List (Nat × List ItemPrice)) (hne : ∀ g ∈ alloc, g.2 ≠ []) :
    ((allocation_to_result stores alloc).flatMap (·.items)).Perm
      (alloc.flatMap (·.2)) := by
  rw [allocation_to_result]
  have hperm := List.perm_insertionSort
    (r := fun (a b : StoreAllocation) => b.total ≤ a.total)
    (alloc.filterMap (fun g =>
      if g.2 = [] then none
      else
        some
          { store_id := g.1
            store_name :=
              match stores.find? (fun s => s.id == g.1) with
              | some s => storeDisplayName s
              | none => "Desconhecido"
            store_address :=
              match stores.find? (fun s => s.id == g.1) with
              | some s => s.endereco ++ ", " ++ s.cidade
              | none => ""
            items := g.2
            total := (g.2.map (·.subtotal)).sum }))
  refine (hperm.flatMap_right (·.items)).trans ?_
  have : ∀ (l : List (Nat × List ItemPrice)), (∀ g ∈ l, g.2 ≠ []) →
      ((l.filterMap (fun g =>
        if g.2 = [] then none
        else
          some
            ({ store_id := g.1
               store_name :=
                 match stores.find? (fun s => s.id == g.1) with
                 | some s => storeDisplayName s
                 | none => "Desconhecido"
               store_address :=
                 match stores.find? (fun s => s.id == g.1) with
                 | some s => s.endereco ++ ", " ++ s.cidade
                 | none => ""
               items := g.2
               total := (g.2.map (·.subtotal)).sum } : StoreAllocation))).flatMap
        (·.items)) = l.flatMap (·.2) := by
    intro l hl
    induction l with
    | nil => simp
    | cons g t ih =>
        have hg : g.2 ≠ [] := hl g (List.mem_cons_self _ _)
        simp only [List.filterMap_cons, if_neg hg, List.flatMap_cons]
        rw [ih (fun g' hg' => hl g' (List.mem_cons_of_mem _ hg'))]
  rw [this alloc hne]

theorem maxByPrice_spec (l : List ItemPrice) (p : ItemPrice) (h : maxByPrice l = some p) :
    p ∈ l ∧ ∀ q ∈ l, q.price ≤ p.price := by
  cases l with
  | nil => simp [maxByPrice] at h
  | cons a t =>
      obtain ⟨r, hr, hmem, hle, hall⟩ := maxByPrice_aux t a
      rw [maxByPrice, List.foldl_cons] at h
      rw [hr] at h
      obtain rfl : r = p := by simpa using h
      constructor
      · rcases hmem with h | h
        · exact h ▸ List.mem_cons_self _ _
        · exact List.mem_cons_of_mem _ h
      · intro q hq
        rcases List.mem_cons.1 hq with h | h
        · exact h ▸ hle
        · exact hall q h

theorem maxByPrice_isSome_of_ne (l : List ItemPrice) (h : l ≠ []) :
    ∃ p, maxByPrice l = some p := by
  cases l with
  | nil => exact absurd rfl h
  | cons a t =>
      obtain ⟨r, hr, _, _, _⟩ := maxByPrice_aux t a
      exact ⟨r, by rw [maxByPrice, List.foldl_cons]; exact hr⟩

theorem stamp_worst_fields (pbi : List (Nat × List ItemPrice)) (x : ItemPrice) :
    (stamp_worst pbi x).item_id = x.item_id ∧ (stamp_worst pbi x).price = x.price ∧
    (stamp_worst pbi x).quantity = x.quantity ∧ (stamp_worst pbi x).subtotal = x.subtotal ∧
    (stamp_worst pbi x).store_id = x.store_id := by
  rw [stamp_worst]
  split
  · split
    · exact ⟨rfl, rfl, rfl, rfl, rfl⟩
    · exact ⟨rfl, rfl, rfl, rfl, rfl⟩
  · exact ⟨rfl, rfl, rfl, rfl, rfl⟩

/-- Each stamped offer's subtotal is dominated by its worst-price term; the
heart of `potential_savings ≥ 0`. -/
theorem stamp_worst_bound (ips : List ItemPrice) (x : ItemPrice) (hx : x ∈ ips)
    (hq : 0 ≤ x.quantity) (hs : x.subtotal = x.price * x.quantity) :
    x.subtotal ≤
      (if 0 < (stamp_worst (groupByKey (·.item_id) ips) x).worst_price
        then (stamp_worst (groupByKey (·.item_id) ips) x).worst_price
        else (stamp_worst (groupByKey (·.item_id) ips) x).price) *
      (stamp_worst (groupByKey (·.item_id) ips) x).quantity := by
  obtain ⟨g, hg, hxg⟩ := groupByKey_lookup_of_mem (·.item_id) ips x hx
  have hgne : g ≠ [] := by intro hcontra; subst hcontra; simp at hxg
  obtain ⟨p, ps, rfl⟩ := List.exists_cons_of_ne_nil hgne
  obtain ⟨w, hw⟩ := maxByPrice_isSome_of_ne (p :: ps) (by simp)
  have hwspec := maxByPrice_spec _ _ hw
  have hxw : x.price ≤ w.price := hwspec.2 x hxg
  have hst : stamp_worst (groupByKey (·.item_id) ips) x =
      { x with
        worst_price := w.price
        worst_store_name := w.store_name
        item_savings := (w.price - x.price) * x.quantity } := by
    simp only [stamp_worst, hg, hw]
  rw [hst]
  simp only
  by_cases hpos : 0 < w.price
  · rw [if_pos hpos, hs]
    exact mul_le_mul_of_nonneg_right hxw hq
  · rw [if_neg hpos, hs]

theorem sort_groups_keys (pbi : List (Nat × List ItemPrice)) :
    (sort_groups pbi).map (·.1) = pbi.map (·.1) := by
  simp [sort_groups]

theorem sort_groups_mem (pbi : List (Nat × List ItemPrice)) :
    ∀ g ∈ sort_groups pbi, ∃ g0 ∈ pbi, g.1 = g0.1 ∧ ∀ x ∈ g.2, x ∈ g0.2 := by
  intro g hg
  obtain ⟨g0, hg0, hgg⟩ := List.mem_map.1 hg
  exact ⟨g0, hg0, by rw [← hgg], fun x hx => by
    rw [← hgg] at hx
    exact (List.mem_insertionSort _).1 hx⟩

/-- The `_optimize_allocation` result, uniformly over its three paths, is a
per-item choice fold over an item grouping of the offers. -/
theorem optimize_allocation_choice (stores : List Store) (ips : List ItemPrice)
    (m : Nat) :
    ∃ (pbi : List (Nat × List ItemPrice)) (choice : Nat × List ItemPrice → Option ItemPrice),
      (optimize_allocation stores ips m).1 =
        allocation_to_result stores (choiceFold pbi choice) ∧
      (pbi.map (·.1)).Nodup ∧
      (∀ g ∈ pbi, ∀ x ∈ g.2, x.item_id = g.1) ∧
      (∀ g ∈ pbi, ∀ x ∈ g.2, x ∈ ips) ∧
      (∀ g ∈ pbi, ∀ p, choice g = some p → p ∈ g.2) := by
  have base_nodup := groupByKey_keys_nodup (fun p : ItemPrice => p.item_id) ips
  have base_content := groupByKey_content (fun p : ItemPrice => p.item_id) ips
  have base_mem : ∀ g ∈ groupByKey (·.item_id) ips, ∀ x ∈ g.2, x ∈ ips := by
    intro g hg x hx
    exact (groupByKey_flatMap_perm (fun p : ItemPrice => p.item_id) ips).subset
      (List.mem_flatMap.2 ⟨g, hg, hx⟩)
  set pbi0 := groupByKey (fun p : ItemPrice => p.item_id) ips with hpbi0
  have sorted_nodup : ((sort_groups pbi0).map (·.1)).Nodup := by
    rw [sort_groups_keys]; exact base_nodup
  have sorted_content : ∀ g ∈ sort_groups pbi0, ∀ x ∈ g.2, x.item_id = g.1 := by
    intro g hg x hx
    obtain ⟨g0, hg0, hkey, hsub⟩ := sort_groups_mem pbi0 g hg
    rw [hkey]
    exact base_content g0 hg0 x (hsub x hx)
  have sorted_mem : ∀ g ∈ sort_groups pbi0, ∀ x ∈ g.2, x ∈ ips := by
    intro g hg x hx
    obtain ⟨g0, hg0, _, hsub⟩ := sort_groups_mem pbi0 g hg
    exact base_mem g0 hg0 x (hsub x hx)
  have greedy_case : ∀ m' : Nat,
      ∃ (pbi : List (Nat × List ItemPrice)) (choice : Nat × List ItemPrice → Option ItemPrice),
      (greedy_allocation stores pbi0 m').1 =
        allocation_to_result stores (choiceFold pbi choice) ∧
      (pbi.map (·.1)).Nodup ∧
      (∀ g ∈ pbi, ∀ x ∈ g.2, x.item_id = g.1) ∧
      (∀ g ∈ pbi, ∀ x ∈ g.2, x ∈ ips) ∧
      (∀ g ∈ pbi, ∀ p, choice g = some p → p ∈ g.2) := by
    intro m'
    rw [greedy_allocation]
    by_cases hover : m' < (first_pass (sort_groups pbi0)).1.length
    · simp only [if_pos hover]
      refine ⟨sort_groups pbi0,
        (fun g => match best_in_top
            (top_set_of (sort_groups pbi0) (first_pass (sort_groups pbi0)).2 m') g.2 with
          | some b => some b
          | none => g.2.head?), ?_, sorted_nodup, sorted_content, sorted_mem, ?_⟩
      · rw [redistribute_fst]
      · intro g hg p hp
        simp only at hp
        cases hb : best_in_top
            (top_set_of (sort_groups pbi0) (first_pass (sort_groups pbi0)).2 m') g.2 with
        | some b =>
            rw [hb] at hp
            obtain rfl : b = p := by simpa using hp
            exact (best_in_top_spec _ _ _ hb).1
        | none =>
            rw [hb] at hp
            exact List.mem_of_mem_head? hp
    · simp only [if_neg hover]
      refine ⟨sort_groups pbi0, fun g => g.2.head?, ?_, sorted_nodup, sorted_content,
        sorted_mem, ?_⟩
      · rw [firstPass_fst]
      · intro g hg p hp
        exact List.mem_of_mem_head? hp
  rw [optimize_allocation]
  by_cases hcond : 1 ≤ m ∧ m ≤ 3 ∧
      (List.insertionSort (fun a b => a ≤ b) ((ips.map (·.store_id)).dedup)).length ≤ 15
  · simp only [if_pos hcond]
    cases hf : find_best_store_set pbi0
        (List.insertionSort (fun a b => a ≤ b) ((ips.map (·.store_id)).dedup)) m with
    | mk oset missing =>
        cases oset with
        | none => exact greedy_case m
        | some best_set =>
            by_cases hbs : best_set = []
            · simp only [if_pos hbs]
              exact greedy_case m
            · simp only [if_neg hbs]
              refine ⟨pbi0, _, rfl, base_nodup, base_content, base_mem, ?_⟩
              intro g hg p hp
              by_cases hmiss : g.1 ∈ missing
              · simp [hmiss] at hp
              · simp only [if_neg hmiss] at hp
                have := minByPrice_spec _ _ hp
                exact List.mem_of_mem_filter this.1
  · simp only [if_neg hcond]
    exact greedy_case m

theorem choiceFold_buckets_nonempty (pbi : List (Nat × List ItemPrice))
    (choice : Nat × List ItemPrice → Option ItemPrice) :
    ∀ g ∈ choiceFold pbi choice, g.2 ≠ [] := by
  have main : ∀ (l : List (Nat × List ItemPrice)) (m0 : List (Nat × List ItemPrice)),
      (∀ g ∈ m0, g.2 ≠ []) →
      ∀ g ∈ l.foldl (fun m g =>
          match choice g with
          | some p => pushBucket p.store_id p m
          | none => m) m0, g.2 ≠ [] := by
    intro l
    induction l with
    | nil => intro m0 h0; exact h0
    | cons g t ih =>
        intro m0 h0
        cases hc : choice g with
        | none => simpa [hc] using ih m0 h0
        | some p =>
            simp only [List.foldl_cons, hc]
            exact ih _ (pushBucket_nonempty p.store_id p m0 h0)
  exact main pbi [] (by simp)

theorem apc_map_item_ids (B : List StoreAllocation)
    (pbi : List (Nat × List ItemPrice)) :
    (((B.map (fun a => { a with items := a.items.map (stamp_worst pbi) })).flatMap
        (·.items)).map (·.item_id))
      = (B.flatMap (·.items)).map (·.item_id) := by
  induction B with
  | nil => rfl
  | cons a t ih =>
      simp only [List.map_cons, List.flatMap_cons, List.map_append, List.map_map]
      congr 1
      exact List.map_congr_left (fun x _ => (stamp_worst_fields pbi x).1)

theorem apc_item_ids (A : List StoreAllocation) (ips : List ItemPrice) :
    ((add_price_comparison A ips).flatMap (·.items)).map (·.item_id)
      = (A.flatMap (·.items)).map (·.item_id) :=
  apc_map_item_ids A (groupByKey (·.item_id) ips)

theorem apc_totals (A : List StoreAllocation) (ips : List ItemPrice) :
    (add_price_comparison A ips).map (·.total) = A.map (·.total) := by
  simp [add_price_comparison, Function.comp]

/-- The multiset of allocated item ids of `_optimize_allocation` has no
duplicates and only contains priced item ids (all three paths). -/
theorem optimize_allocation_ids (stores : List Store) (ips : List ItemPrice) (m : Nat) :
    (((optimize_allocation stores ips m).1.flatMap (·.items)).map (·.item_id)).Nodup ∧
    ∀ i ∈ (((optimize_allocation stores ips m).1.flatMap (·.items)).map (·.item_id)),
      i ∈ ips.map (·.item_id) := by
  obtain ⟨pbi, choice, heq, hnodup, hcontent, hmem, hok⟩ :=
    optimize_allocation_choice stores ips m
  rw [heq]
  have hne := choiceFold_buckets_nonempty pbi choice
  have hperm1 := allocation_to_result_items_perm stores _ hne
  have hperm2 :
      (((allocation_to_result stores (choiceFold pbi choice)).flatMap (·.items)).map
        (·.item_id)).Perm ((pbi.filterMap choice).map (·.item_id)) :=
    (hperm1.map _).trans ((choiceFold_flatMap pbi choice).map _)
  have hok2 : ∀ g ∈ pbi, ∀ p, choice g = some p → p.item_id = g.1 :=
    fun g hg p hp => hcontent g hg p (hok g hg p hp)
  have hsub := filterMap_item_ids_sublist pbi choice hok2
  refine ⟨hperm2.nodup_iff.2 (hsub.nodup hnodup), ?_⟩
  intro i hi
  have hi2 := hperm2.subset hi
  obtain ⟨p, hp, hpi⟩ := List.mem_map.1 hi2
  obtain ⟨g, hg, hgp⟩ := List.mem_filterMap.1 hp
  rw [← hpi]
  exact List.mem_map_of_mem _ (hmem g hg p (hok g hg p hgp))

theorem mem_combos : ∀ (k : Nat) (l : List Nat) (c : List Nat),
    c ∈ combos k l ↔ c.Sublist l ∧ c.length = k := by
  intro k l
  induction l generalizing k with
  | nil =>
      intro c
      cases k with
      | zero =>
          simp only [combos, List.mem_singleton]
          constructor
          · rintro rfl; exact ⟨List.Sublist.refl _, rfl⟩
          · rintro ⟨hs, hl⟩
            cases List.sublist_nil.1 hs
            rfl
      | succ k =>
          simp only [combos, List.not_mem_nil, false_iff, not_and]
          intro hs
          cases List.sublist_nil.1 hs
          simp
  | cons x xs ih =>
      intro c
      cases k with
      | zero =>
          simp only [combos, List.mem_singleton]
          constructor
          · rintro rfl; exact ⟨List.nil_sublist _, rfl⟩
          · rintro ⟨hs, hl⟩
            exact List.length_eq_zero.1 hl
      | succ k =>
          rw [combos]
          simp only [List.mem_append, List.mem_map]
          constructor
          · rintro (⟨c2, hc2, rfl⟩ | hc)
            · obtain ⟨hsub, hlen⟩ := (ih k c2).1 hc2
              exact ⟨hsub.cons₂ x, by simp [hlen]⟩
            · obtain ⟨hsub, hlen⟩ := (ih (k + 1) c).1 hc
              exact ⟨hsub.cons x, hlen⟩
          · rintro ⟨hsub, hlen⟩
            cases c with
            | nil => simp at hlen
            | cons y ys =>
                cases hsub with
                | cons _ h => exact Or.inr ((ih (k + 1) (y :: ys)).2 ⟨h, hlen⟩)
                | cons₂ _ h =>
                    exact Or.inl ⟨ys, (ih k ys).2 ⟨h, by simpa using hlen⟩, rfl⟩

theorem mem_all_combos (sids : List Nat) (m : Nat) (c : List Nat) :
    c ∈ all_combos sids m ↔ c.Sublist sids ∧ 1 ≤ c.length ∧ c.length ≤ m := by
  rw [all_combos]
  rw [List.mem_flatMap]
  constructor
  · rintro ⟨k, hk, hc⟩
    obtain ⟨hsub, hlen⟩ := (mem_combos k sids c).1 hc
    have hk2 := List.mem_range'_1.1 hk
    exact ⟨hsub, by omega, by omega⟩
  · rintro ⟨hsub, h1, h2⟩
    exact ⟨c.length, List.mem_range'_1.2 ⟨h1, by omega⟩,
      (mem_combos c.length sids c).2 ⟨hsub, rfl⟩⟩

theorem best_in_combo_isSome_iff (combo : List Nat) (prices : List ItemPrice) :
    (best_in_combo combo prices).isSome = true ↔
      ∃ p ∈ prices, p.store_id ∈ combo := by
  rw [best_in_combo]
  constructor
  · intro h
    obtain ⟨p, hp⟩ := Option.isSome_iff_exists.1 h
    obtain ⟨hmem, _⟩ := minByPrice_spec _ _ hp
    obtain ⟨hmem2, hcond⟩ := List.mem_filter.1 hmem
    exact ⟨p, hmem2, by simpa using hcond⟩
  · rintro ⟨p, hp, hpc⟩
    have hne : prices.filter (fun p => combo.contains p.store_id) ≠ [] := by
      intro hcontra
      have : p ∈ prices.filter (fun p => combo.contains p.store_id) :=
        List.mem_filter.2 ⟨hp, by simpa using hpc⟩
      rw [hcontra] at this
      simp at this
    obtain ⟨q, hq⟩ := minByPrice_isSome_of_ne _ hne
    rw [hq]
    rfl

theorem combo_covered_mono (pbi : List (Nat × List ItemPrice)) (S T : List Nat)
    (h : ∀ x ∈ S, x ∈ T) : combo_covered pbi S ≤ combo_covered pbi T := by
  rw [combo_covered, combo_covered]
  refine List.Sublist.length_le (List.monotone_filter_right pbi ?_)
  intro g hg
  rw [best_in_combo_isSome_iff] at hg ⊢
  obtain ⟨p, hp, hpc⟩ := hg
  exact ⟨p, hp, h _ hpc⟩

theorem combo_covered_congr (pbi : List (Nat × List ItemPrice)) (S T : List Nat)
    (h : ∀ x, x ∈ S ↔ x ∈ T) : combo_covered pbi S = combo_covered pbi T :=
  le_antisymm (combo_covered_mono pbi S T (fun x hx => (h x).1 hx))
    (combo_covered_mono pbi T S (fun x hx => (h x).2 hx))

theorem exists_combo_of_subset (sids T : List Nat) (hnd : T.Nodup)
    (hsub : ∀ x ∈ T, x ∈ sids) (hsnd : sids.Nodup) :
    ∃ c ∈ combos T.length sids, ∀ x, x ∈ c ↔ x ∈ T := by
  refine ⟨sids.filter (fun x => T.contains x), ?_, ?_⟩
  · rw [mem_combos]
    refine ⟨List.filter_sublist _, ?_⟩
    have hmemc : ∀ x, x ∈ sids.filter (fun x => T.contains x) ↔ x ∈ T := by
      intro x
      rw [List.mem_filter]
      constructor
      · rintro ⟨_, hx⟩; exact List.elem_iff.1 hx
      · intro hx
        exact ⟨hsub x hx, List.elem_iff.2 hx⟩
    have hfnd : (sids.filter (fun x => T.contains x)).Nodup :=
      hsnd.filter _
    have h1 : (sids.filter (fun x => T.contains x)).Subperm T :=
      hfnd.subperm (fun x hx => (hmemc x).1 hx)
    have h2 : T.Subperm (sids.filter (fun x => T.contains x)) :=
      hnd.subperm (fun x hx => (hmemc x).2 hx)
    exact le_antisymm h1.length_le h2.length_le
  · intro x
    rw [List.mem_filter]
    constructor
    · rintro ⟨_, hx⟩; exact List.elem_iff.1 hx
    · intro hx
      exact ⟨hsub x hx, List.elem_iff.2 hx⟩

theorem combo_total_eq_zero (pbi : List (Nat × List ItemPrice)) (combo : List Nat)
    (h : combo_covered pbi combo = 0) : combo_total pbi combo = 0 := by
  induction pbi with
  | nil => rfl
  | cons g t ih =>
      by_cases hb : (best_in_combo combo g.2).isSome
      · exfalso
        rw [combo_covered, List.filter_cons, if_pos (by simpa using hb)] at h
        simp at h
      · rw [Option.not_isSome_iff_eq_none] at hb
        have ht : combo_covered t combo = 0 := by
          rw [combo_covered, List.filter_cons, if_neg (by simp [hb])] at h
          exact h
        have h2 := ih ht
        rw [combo_total] at h2 ⊢
        rw [List.filterMap_cons, hb]
        simpa using h2

/-- Scanning the enumeration, `_find_best_store_set` keeps the first
combination that is optimal in the (coverage desc, total asc) order. -/
theorem fbss_fold_spec (pbi : List (Nat × List ItemPrice)) (L : List (List Nat)) :
    (L = [] ∧ L.foldl (fbss_step pbi) ⟨none, none, [], -1⟩ = ⟨none, none, [], -1⟩) ∨
    (∃ c L₁ L₂, L = L₁ ++ c :: L₂ ∧
      L.foldl (fbss_step pbi) ⟨none, none, [], -1⟩ =
        ⟨some (combo_total pbi c), some c, combo_missing pbi c,
          (combo_covered pbi c : Int)⟩ ∧
      (∀ d ∈ L₁, strictly_better pbi c d) ∧
      (∀ d ∈ L, combo_covered pbi d ≤ combo_covered pbi c) ∧
      (∀ d ∈ L, combo_covered pbi d = combo_covered pbi c →
        combo_total pbi c ≤ combo_total pbi d)) := by
  induction L using List.reverseRecOn with
  | nil => exact Or.inl ⟨rfl, rfl⟩
  | append_singleton L e ih =>
      rw [List.foldl_append, List.foldl_cons, List.foldl_nil]
      rcases ih with ⟨hL, hst⟩ | ⟨c, L₁, L₂, hdecomp, hst, hstrict, hcov, htot⟩
      · subst hL
        right
        refine ⟨e, [], [], by simp, ?_, by simp, ?_, ?_⟩
        · rw [List.foldl_nil]
          simp only [fbss_step]
          rw [if_pos (show (⟨none, none, [], -1⟩ : BestSetState).best_covered <
            (combo_covered pbi e : Int) by
              show (-1 : Int) < (combo_covered pbi e : Int)
              omega)]
        · intro d hd
          simp only [List.nil_append, List.mem_singleton] at hd
          subst hd
          exact le_refl _
        · intro d hd _
          simp only [List.nil_append, List.mem_singleton] at hd
          subst hd
          exact le_refl _
      · rw [hst]
        by_cases h1 : (combo_covered pbi c : Int) < (combo_covered pbi e : Int)
        · have h1n : combo_covered pbi c < combo_covered pbi e := by exact_mod_cast h1
          right
          refine ⟨e, L, [], by simp, ?_, ?_, ?_, ?_⟩
          · simp only [fbss_step]
            rw [if_pos h1]
          · intro d hd
            exact Or.inl (lt_of_le_of_lt (hcov d hd) h1n)
          · intro d hd
            rcases List.mem_append.1 hd with hd | hd
            · exact le_of_lt (lt_of_le_of_lt (hcov d hd) h1n)
            · simp only [List.mem_singleton] at hd
              subst hd
              exact le_refl _
          · intro d hd hde
            rcases List.mem_append.1 hd with hd | hd
            · exact absurd hde (by have := hcov d hd; omega)
            · simp only [List.mem_singleton] at hd
              subst hd
              exact le_refl _
        · by_cases h2 : (combo_covered pbi e : Int) = (combo_covered pbi c : Int) ∧
              0 < (combo_covered pbi e : Int)
          · have h2n : combo_covered pbi e = combo_covered pbi c := by exact_mod_cast h2.1
            by_cases h3 : combo_total pbi e < combo_total pbi c
            · right
              refine ⟨e, L, [], by simp, ?_, ?_, ?_, ?_⟩
              · simp only [fbss_step]
                rw [if_neg h1, if_pos h2]
                simp only [if_pos h3]
              · intro d hd
                rcases Nat.lt_or_ge (combo_covered pbi d) (combo_covered pbi c) with hlt | hge
                · exact Or.inl (by omega)
                · have hdc : combo_covered pbi d = combo_covered pbi c :=
                    le_antisymm (hcov d hd) hge
                  exact Or.inr ⟨by omega, lt_of_lt_of_le h3 (htot d hd hdc)⟩
              · intro d hd
                rcases List.mem_append.1 hd with hd | hd
                · exact le_trans (hcov d hd) (le_of_eq h2n.symm)
                · simp only [List.mem_singleton] at hd
                  subst hd
                  exact le_refl _
              · intro d hd hde
                rcases List.mem_append.1 hd with hd | hd
                · have hdc : combo_covered pbi d = combo_covered pbi c := by omega
                  exact le_of_lt (lt_of_lt_of_le h3 (htot d hd hdc))
                · simp only [List.mem_singleton] at hd
                  subst hd
                  exact le_refl _
            · right
              refine ⟨c, L₁, L₂ ++ [e], ?_, ?_, hstrict, ?_, ?_⟩
              · rw [hdecomp]
                simp
              · simp only [fbss_step]
                rw [if_neg h1, if_pos h2]
                simp only [if_neg h3]
              · intro d hd
                rcases List.mem_append.1 hd with hd | hd
                · exact hcov d hd
                · simp only [List.mem_singleton] at hd
                  subst hd
                  exact le_of_eq h2n
              · intro d hd hde
                rcases List.mem_append.1 hd with hd | hd
                · exact htot d hd hde
                · simp only [List.mem_singleton] at hd
                  subst hd
                  exact not_lt.1 h3
          · have hle : combo_covered pbi e ≤ combo_covered pbi c := by omega
            right
            refine ⟨c, L₁, L₂ ++ [e], ?_, ?_, hstrict, ?_, ?_⟩
            · rw [hdecomp]
              simp
            · simp only [fbss_step]
              rw [if_neg h1, if_neg h2]
            · intro d hd
              rcases List.mem_append.1 hd with hd | hd
              · exact hcov d hd
              · simp only [List.mem_singleton] at hd
                subst hd
                exact hle
            · intro d hd hde
              rcases List.mem_append.1 hd with hd | hd
              · exact htot d hd hde
              · simp only [List.mem_singleton] at hd
                rw [hd]
                rw [hd] at hde
                push_neg at h2
                have hA : (combo_covered pbi e : Int) = (combo_covered pbi c : Int) := by
                  exact_mod_cast hde
                have hB := h2 hA
                have hzero : combo_covered pbi e = 0 := by omega
                have hzc : combo_covered pbi c = 0 := by omega
                rw [combo_total_eq_zero pbi e hzero, combo_total_eq_zero pbi c hzc]

/-- `_find_best_store_set` on a nonempty enumeration: the returned set is the
first combination maximizing coverage then minimizing total cost, and the
missing set is its uncovered items. -/
theorem find_best_store_set_spec (pbi : List (Nat × List ItemPrice)) (sids : List Nat)
    (m : Nat) (hne : all_combos sids m ≠ []) :
    ∃ c L₁ L₂, find_best_store_set pbi sids m = (some c, combo_missing pbi c) ∧
      all_combos sids m = L₁ ++ c :: L₂ ∧
      (∀ d ∈ L₁, strictly_better pbi c d) ∧
      (∀ d ∈ all_combos sids m, combo_covered pbi d ≤ combo_covered pbi c) ∧
      (∀ d ∈ all_combos sids m, combo_covered pbi d = combo_covered pbi c →
        combo_total pbi c ≤ combo_total pbi d) := by
  rcases fbss_fold_spec pbi (all_combos sids m) with ⟨h, _⟩ |
    ⟨c, L₁, L₂, hdecomp, hst, hstrict, hcov, htot⟩
  · exact absurd h hne
  · exact ⟨c, L₁, L₂, by rw [find_best_store_set]; rw [hst], hdecomp, hstrict, hcov, htot⟩

/-- A returned best set is one of the enumerated combinations, and the missing
set is its uncovered items. -/
theorem find_best_store_set_some (pbi : List (Nat × List ItemPrice)) (sids : List Nat)
    (m : Nat) (c : List Nat) (miss : List Nat)
    (h : find_best_store_set pbi sids m = (some c, miss)) :
    c ∈ all_combos sids m ∧ miss = combo_missing pbi c := by
  rcases fbss_fold_spec pbi (all_combos sids m) with ⟨hL, hst⟩ |
    ⟨c2, L₁, L₂, hdecomp, hst, _, _, _⟩
  · rw [find_best_store_set] at h
    rw [hst] at h
    simp at h
  · rw [find_best_store_set] at h
    rw [hst] at h
    simp only [Prod.mk.injEq, Option.some_inj] at h
    obtain ⟨rfl, hmiss⟩ := h
    constructor
    · rw [hdecomp]
      exact List.mem_append.2 (Or.inr (List.mem_cons_self _ _))
    · exact hmiss.symm

/-- If the greedy path ends with the overflow flag down, the allocation uses
at most `max_stores` stores. -/
theorem greedy_allocation_cap (stores : List Store) (pbi : List (Nat × List ItemPrice))
    (m : Nat) (h : (greedy_allocation stores pbi m).2 = false) :
    (greedy_allocation stores pbi m).1.length ≤ m := by
  rw [greedy_allocation] at h ⊢
  by_cases hover : m < (first_pass (sort_groups pbi)).1.length
  · simp only [if_pos hover] at h ⊢
    obtain ⟨hreq, hchoice⟩ := redistribute_flag_false (sort_groups pbi)
      (first_pass (sort_groups pbi)).2 m h
    rw [redistribute_fst]
    have hts := top_set_of_length (sort_groups pbi) (first_pass (sort_groups pbi)).2 m hreq
    refine le_trans (allocation_to_result_length _ _) ?_
    have hnodup := choiceFold_keys_nodup (sort_groups pbi)
      (fun g => match best_in_top
          (top_set_of (sort_groups pbi) (first_pass (sort_groups pbi)).2 m) g.2 with
        | some b => some b
        | none => g.2.head?)
    have hsub : ∀ s ∈ (choiceFold (sort_groups pbi)
        (fun g => match best_in_top
            (top_set_of (sort_groups pbi) (first_pass (sort_groups pbi)).2 m) g.2 with
          | some b => some b
          | none => g.2.head?)).map (·.1),
        s ∈ top_set_of (sort_groups pbi) (first_pass (sort_groups pbi)).2 m := by
      intro s hs
      obtain ⟨q, hq, hqs⟩ := choiceFold_keys_sub _ _ s hs
      obtain ⟨g, hg, hcq⟩ := List.mem_filterMap.1 hq
      have hcont := hchoice g hg q hcq
      rw [← hqs]
      exact List.elem_iff.1 hcont
    have hlen := (hnodup.subperm hsub).length_le
    rw [List.length_map] at hlen
    exact le_trans hlen hts
  · simp only [if_neg hover] at h ⊢
    refine le_trans (allocation_to_result_length _ _) ?_
    omega

/-- C3's amended cap bound: whenever `_optimize_allocation` reports no
overflow, the allocation uses at most `max_stores` distinct stores. -/
theorem optimize_allocation_cap (stores : List Store) (ips : List ItemPrice) (m : Nat)
    (h : (optimize_allocation stores ips m).2 = false) :
    (((optimize_allocation stores ips m).1.map (·.store_id)).dedup).length ≤ m := by
  suffices hlen : (optimize_allocation stores ips m).1.length ≤ m by
    refine le_trans ?_ hlen
    refine le_trans (List.Sublist.length_le (List.dedup_sublist _)) ?_
    rw [List.length_map]
  rw [optimize_allocation] at h ⊢
  by_cases hcond : 1 ≤ m ∧ m ≤ 3 ∧
      (List.insertionSort (fun a b => a ≤ b) ((ips.map (·.store_id)).dedup)).length ≤ 15
  · simp only [if_pos hcond] at h ⊢
    cases hf : find_best_store_set (groupByKey (·.item_id) ips)
        (List.insertionSort (fun a b => a ≤ b) ((ips.map (·.store_id)).dedup)) m with
    | mk oset miss =>
        rw [hf] at h
        cases oset with
        | none => exact greedy_allocation_cap stores _ m h
        | some bs =>
            by_cases hbs : bs = []
            · simp only [if_pos hbs] at h ⊢
              exact greedy_allocation_cap stores _ m h
            · simp only [if_neg hbs] at h ⊢
              obtain ⟨hmem, hmiss⟩ := find_best_store_set_some _ _ _ _ _ hf
              obtain ⟨hsubl, h1, h2⟩ := (mem_all_combos _ _ _).1 hmem
              refine le_trans (allocation_to_result_length _ _) ?_
              have hnodup := choiceFold_keys_nodup (groupByKey (·.item_id) ips)
                (fun g => if g.1 ∈ miss then none else best_in_combo bs g.2)
              have hsub : ∀ s ∈ (exact_allocation (groupByKey (·.item_id) ips) bs
                  miss).map (·.1), s ∈ bs := by
                intro s hs
                obtain ⟨q, hq, hqs⟩ := choiceFold_keys_sub _ _ s hs
                obtain ⟨g, hg, hcq⟩ := List.mem_filterMap.1 hq
                by_cases hm : g.1 ∈ miss
                · simp [hm] at hcq
                · simp only [if_neg hm] at hcq
                  have := (minByPrice_spec _ _ hcq).1
                  obtain ⟨_, hcont⟩ := List.mem_filter.1 this
                  rw [← hqs]
                  exact List.elem_iff.1 hcont
              have hlen := (hnodup.subperm hsub).length_le
              rw [List.length_map] at hlen
              exact le_trans hlen h2
  · simp only [if_neg hcond] at h ⊢
    exact greedy_allocation_cap stores _ m h

theorem addToSet_getD_mem (k x s y : Nat) (m : List (Nat × List Nat)) :
    (y ∈ (lookup? s (addToSet k x m)).getD []) ↔
      ((y ∈ (lookup? s m).getD []) ∨ (s = k ∧ y = x)) := by
  induction m with
  | nil =>
      rw [addToSet, lookup?_nil, lookup?_cons, lookup?_nil]
      by_cases hs : k = s
      · subst hs
        simp
      · rw [if_neg hs]
        constructor
        · intro hy
          exact Or.inl hy
        · rintro (hy | ⟨hsk, _⟩)
          · exact hy
          · exact absurd hsk.symm hs
  | cons hd t ih =>
      obtain ⟨k2, xs⟩ := hd
      rw [addToSet]
      by_cases hk : k2 = k
      · rw [if_pos hk, lookup?_cons, lookup?_cons]
        by_cases hs : k2 = s
        · have hsk : s = k := by rw [← hs, hk]
          rw [if_pos hs, if_pos hs]
          by_cases hx : x ∈ xs
          · rw [if_pos hx]
            constructor
            · intro hy
              exact Or.inl hy
            · rintro (hy | ⟨_, rfl⟩)
              · exact hy
              · exact hx
          · rw [if_neg hx]
            simp [hsk, or_assoc]
        · have hsk : ¬ s = k := by
            rw [← hk]
            intro hc
            exact hs hc.symm
          rw [if_neg hs, if_neg hs]
          simp [hsk]
      · rw [if_neg hk, lookup?_cons, lookup?_cons]
        by_cases hs : k2 = s
        · have hsk : ¬ s = k := by
            rw [← hs]
            intro hc
            exact hk hc
          rw [if_pos hs, if_pos hs]
          simp [hsk]
        · rw [if_neg hs, if_neg hs]
          exact ih

/-- Membership characterization of the `store_items` defaultdict-of-sets
fold of `_calculate_single_store_cost`. -/
theorem store_items_getD_mem (ips : List ItemPrice) (s y : Nat) :
    (y ∈ (lookup? s
        (ips.foldl (fun m ip => addToSet ip.store_id ip.item_id m) [])).getD []) ↔
      ∃ ip ∈ ips, ip.store_id = s ∧ ip.item_id = y := by
  have main : ∀ (l : List ItemPrice) (m0 : List (Nat × List Nat)),
      (y ∈ (lookup? s
          (l.foldl (fun m ip => addToSet ip.store_id ip.item_id m) m0)).getD []) ↔
        ((y ∈ (lookup? s m0).getD []) ∨ ∃ ip ∈ l, ip.store_id = s ∧ ip.item_id = y) := by
    intro l
    induction l with
    | nil =>
        intro m0
        simp
    | cons ip t ih =>
        intro m0
        rw [List.foldl_cons, ih (addToSet ip.store_id ip.item_id m0),
          addToSet_getD_mem]
        constructor
        · rintro ((hy | ⟨hs2, hy2⟩) | ⟨ip2, hip2, h3⟩)
          · exact Or.inl hy
          · exact Or.inr ⟨ip, List.mem_cons_self _ _, hs2.symm, hy2.symm⟩
          · exact Or.inr ⟨ip2, List.mem_cons_of_mem _ hip2, h3⟩
        · rintro (hy | ⟨ip2, hip2, hs2, hy2⟩)
          · exact Or.inl (Or.inl hy)
          · rcases List.mem_cons.1 hip2 with rfl | hip2
            · exact Or.inl (Or.inr ⟨hs2.symm, hy2.symm⟩)
            · exact Or.inr ⟨ip2, hip2, hs2, hy2⟩
  rw [main ips []]
  simp [lookup?_nil]

theorem addToSet_mem_content (k x : Nat) (m : List (Nat × List Nat))
    (g : Nat × List Nat) (hg : g ∈ addToSet k x m) (y : Nat) (hy : y ∈ g.2) :
    (∃ g0 ∈ m, g0.1 = g.1 ∧ y ∈ g0.2) ∨ (g.1 = k ∧ y = x) := by
  induction m with
  | nil =>
      rw [addToSet] at hg
      simp only [List.mem_singleton] at hg
      subst hg
      simp only [List.mem_singleton] at hy
      exact Or.inr ⟨rfl, hy⟩
  | cons hd t ih =>
      obtain ⟨k2, xs⟩ := hd
      rw [addToSet] at hg
      by_cases hk : k2 = k
      · rw [if_pos hk] at hg
        rcases List.mem_cons.1 hg with hg1 | hg1
        · rw [hg1] at hy ⊢
          dsimp only at hy ⊢
          by_cases hx : x ∈ xs
          · rw [if_pos hx] at hy
            exact Or.inl ⟨(k2, xs), List.mem_cons_self _ _, rfl, hy⟩
          · rw [if_neg hx] at hy
            rcases List.mem_append.1 hy with hy | hy
            · exact Or.inl ⟨(k2, xs), List.mem_cons_self _ _, rfl, hy⟩
            · simp only [List.mem_singleton] at hy
              exact Or.inr ⟨hk, hy⟩
        · exact Or.inl ⟨g, List.mem_cons_of_mem _ hg1, rfl, hy⟩
      · rw [if_neg hk] at hg
        rcases List.mem_cons.1 hg with hg1 | hg1
        · rw [hg1] at hy ⊢
          exact Or.inl ⟨(k2, xs), List.mem_cons_self _ _, rfl, hy⟩
        · rcases ih hg1 with ⟨g0, hg0, he, hy0⟩ | h
          · exact Or.inl ⟨g0, List.mem_cons_of_mem _ hg0, he, hy0⟩
          · exact Or.inr h

/-- Every member of a `store_items` bucket comes from a price row of that
store. -/
theorem store_items_mem_content (ips : List ItemPrice) (g : Nat × List Nat)
    (hg : g ∈ ips.foldl (fun m ip => addToSet ip.store_id ip.item_id m) [])
    (y : Nat) (hy : y ∈ g.2) :
    ∃ ip ∈ ips, ip.store_id = g.1 ∧ ip.item_id = y := by
  have main : ∀ (l : List ItemPrice) (m0 : List (Nat × List Nat)),
      ∀ g2 ∈ l.foldl (fun m ip => addToSet ip.store_id ip.item_id m) m0, ∀ z ∈ g2.2,
        (∃ g0 ∈ m0, g0.1 = g2.1 ∧ z ∈ g0.2) ∨
          ∃ ip ∈ l, ip.store_id = g2.1 ∧ ip.item_id = z := by
    intro l
    induction l with
    | nil =>
        intro m0 g2 hg2 z hz
        exact Or.inl ⟨g2, hg2, rfl, hz⟩
    | cons ip t ih =>
        intro m0 g2 hg2 z hz
        rw [List.foldl_cons] at hg2
        rcases ih _ g2 hg2 z hz with ⟨g0, hg0, he, hz0⟩ | ⟨ip2, hip2, h2⟩
        · rcases addToSet_mem_content ip.store_id ip.item_id m0 g0 hg0 z hz0 with
            ⟨g1, hg1, he1, hz1⟩ | ⟨he1, hz1⟩
          · exact Or.inl ⟨g1, hg1, he1.trans he, hz1⟩
          · exact Or.inr ⟨ip, List.mem_cons_self _ _, he1.symm.trans he, hz1.symm⟩
        · exact Or.inr ⟨ip2, List.mem_cons_of_mem _ hip2, h2⟩
  rcases main ips [] g hg y hy with ⟨g0, hg0, _⟩ | h
  · simp at hg0
  · exact h

theorem addVal_getD (k s : Nat) (d : ℚ) (m : List (Nat × ℚ)) :
    (lookup? s (addVal k d m)).getD 0 =
      (if s = k then (lookup? s m).getD 0 + d else (lookup? s m).getD 0) := by
  induction m with
  | nil =>
      rw [addVal, lookup?_nil, lookup?_cons, lookup?_nil]
      by_cases hs : k = s
      · subst hs
        simp
      · rw [if_neg hs, if_neg (fun h => hs h.symm)]
  | cons hd t ih =>
      obtain ⟨k2, v⟩ := hd
      rw [addVal]
      by_cases hk : k2 = k
      · rw [if_pos hk, lookup?_cons, lookup?_cons]
        by_cases hs : k2 = s
        · have hsk : s = k := by rw [← hs, hk]
          rw [if_pos hs, if_pos hs, if_pos hsk]
          simp
        · have hsk : ¬ s = k := by
            rw [← hk]
            intro h
            exact hs h.symm
          rw [if_neg hs, if_neg hs, if_neg hsk]
      · rw [if_neg hk, lookup?_cons, lookup?_cons]
        by_cases hs : k2 = s
        · have hsk : ¬ s = k := by
            rw [← hs]
            intro h
            exact hk h
          rw [if_pos hs, if_pos hs, if_neg hsk]
        · rw [if_neg hs, if_neg hs]
          exact ih

/-- For a complete store, the `store_totals` fold sums exactly the subtotals
of that store's rows. -/
theorem store_totals_getD (cs : List Nat) (s : Nat) (hs : s ∈ cs) (l : List ItemPrice) :
    ∀ m0, (lookup? s (l.foldl
        (fun m ip =>
          if cs.contains ip.store_id then addVal ip.store_id ip.subtotal m else m)
        m0)).getD 0 =
      (lookup? s m0).getD 0 +
        ((l.filter (fun ip => ip.store_id == s)).map (·.subtotal)).sum := by
  induction l with
  | nil =>
      intro m0
      simp
  | cons ip t ih =>
      intro m0
      rw [List.foldl_cons, List.filter_cons]
      by_cases hips : ip.store_id = s
      · have hc : cs.contains ip.store_id = true := by
          rw [hips]
          exact List.elem_iff.2 hs
        rw [if_pos hc, ih (addVal ip.store_id ip.subtotal m0), addVal_getD,
          if_pos hips.symm, if_pos (by simp [hips] : (ip.store_id == s) = true)]
        rw [List.map_cons, List.sum_cons]
        ring
  
      · rw [if_neg (by simp [hips] : ¬ (ip.store_id == s) = true)]
        by_cases hc : cs.contains ip.store_id = true
        · rw [if_pos hc, ih (addVal ip.store_id ip.subtotal m0), addVal_getD,
            if_neg (fun h => hips h.symm)]
        · rw [if_neg hc, ih m0]

theorem addVal_ne_nil (k : Nat) (d : ℚ) (m : List (Nat × ℚ)) : addVal k d m ≠ [] := by
  cases m with
  | nil => simp [addVal]
  | cons hd t =>
      obtain ⟨k2, v⟩ := hd
      rw [addVal]
      by_cases hk : k2 = k
      · rw [if_pos hk]
        simp
      · rw [if_neg hk]
        simp

theorem store_totals_ne_nil (cs : List Nat) :
    ∀ (l : List ItemPrice) (m0 : List (Nat × ℚ)),
      (m0 ≠ [] ∨ ∃ ip ∈ l, cs.contains ip.store_id = true) →
      l.foldl
        (fun m ip =>
          if cs.contains ip.store_id then addVal ip.store_id ip.subtotal m else m)
        m0 ≠ [] := by
  intro l
  induction l with
  | nil =>
      intro m0 h
      rcases h with h | ⟨ip, hip, _⟩
      · simpa using h
      · simp at hip
  | cons ip t ih =>
      intro m0 h
      rw [List.foldl_cons]
      by_cases hc : cs.contains ip.store_id = true
      · rw [if_pos hc]
        exact ih _ (Or.inl (addVal_ne_nil _ _ _))
      · rw [if_neg hc]
        apply ih
        rcases h with h | ⟨ip2, hip2, hc2⟩
        · exact Or.inl h
        · rcases List.mem_cons.1 hip2 with rfl | hip2
          · exact absurd hc2 hc
          · exact Or.inr ⟨ip2, hip2, hc2⟩

theorem minQ_ge (a : ℚ) : ∀ (l : List ℚ), l ≠ [] → (∀ x ∈ l, a ≤ x) → a ≤ minQ l := by
  intro l
  cases l with
  | nil =>
      intro h
      exact absurd rfl h
  | cons x xs =>
      intro _ hall
      rw [minQ]
      have main : ∀ (t : List ℚ) (acc : ℚ), a ≤ acc → (∀ y ∈ t, a ≤ y) →
          a ≤ t.foldl min acc := by
        intro t
        induction t with
        | nil =>
            intro acc h _
            exact h
        | cons y ys ih =>
            intro acc hacc hall2
            rw [List.foldl_cons]
            exact ih _ (le_min hacc (hall2 y (List.mem_cons_self _ _)))
              (fun z hz => hall2 z (List.mem_cons_of_mem _ hz))
      exact main xs x (hall x (List.mem_cons_self _ _))
        (fun z hz => hall z (List.mem_cons_of_mem _ hz))

theorem sum_filterMap_getD (l : List (Nat × List ItemPrice))
    (f : Nat × List ItemPrice → Option ℚ) :
    (l.filterMap f).sum = (l.map (fun g => (f g).getD 0)).sum := by
  induction l with
  | nil => rfl
  | cons g t ih =>
      rw [List.filterMap_cons]
      cases hf : f g with
      | none => simp [hf, ih]
      | some v => simp [hf, ih]

theorem sum_map_flatMap (l : List (Nat × List ItemPrice)) (p : ItemPrice → Bool) :
    (l.map (fun g => ((g.2.filter p).map (·.subtotal)).sum)).sum =
      (((l.flatMap (·.2)).filter p).map (·.subtotal)).sum := by
  induction l with
  | nil => rfl
  | cons g t ih =>
      rw [List.map_cons, List.sum_cons, List.flatMap_cons, List.filter_append,
        List.map_append, List.sum_append, ih]

theorem combo_covered_le_length (pbi : List (Nat × List ItemPrice)) (d : List Nat) :
    combo_covered pbi d ≤ pbi.length :=
  List.length_filter_le _ _

theorem combo_covered_full (pbi : List (Nat × List ItemPrice)) (s : Nat)
    (h : ∀ g ∈ pbi, ∃ ip ∈ g.2, ip.store_id = s) :
    combo_covered pbi [s] = pbi.length := by
  rw [combo_covered]
  have hfe : pbi.filter (fun g => (best_in_combo [s] g.2).isSome) = pbi := by
    refine List.filter_eq_self.2 ?_
    intro g hg
    obtain ⟨ip, hip, hsid⟩ := h g hg
    exact (best_in_combo_isSome_iff _ _).2
      ⟨ip, hip, by rw [hsid]; exact List.mem_singleton.2 rfl⟩
  rw [hfe]

/-- Buying each item at its cheapest offer of one store costs at most the sum
of all that store's rows. -/
theorem combo_total_single_le (ips : List ItemPrice) (s : Nat)
    (hsub0 : ∀ ip ∈ ips, 0 ≤ ip.subtotal) :
    combo_total (groupByKey (·.item_id) ips) [s] ≤
      ((ips.filter (fun ip => ip.store_id == s)).map (·.subtotal)).sum := by
  have hconv : ips.filter (fun ip => ip.store_id == s) =
      ips.filter (fun ip => [s].contains ip.store_id) := by
    refine List.filter_congr ?_
    intro ip _
    by_cases h : ip.store_id = s
    · simp [List.contains_cons, h]
    · simp [List.contains_cons, h]
  rw [hconv]
  have hperm : (((groupByKey (·.item_id) ips).flatMap (·.2)).filter
      (fun ip => [s].contains ip.store_id)).Perm
      (ips.filter (fun ip => [s].contains ip.store_id)) :=
    (groupByKey_flatMap_perm (·.item_id) ips).filter _
  rw [← (hperm.map (·.subtotal)).sum_eq]
  rw [← sum_map_flatMap]
  rw [combo_total, sum_filterMap_getD]
  refine List.sum_le_sum ?_
  intro g hg
  have hsub : ∀ x ∈ g.2, x ∈ ips := by
    intro x hx
    exact (groupByKey_flatMap_perm (·.item_id) ips).mem_iff.1
      (List.mem_flatMap.2 ⟨g, hg, hx⟩)
  cases hb : best_in_combo [s] g.2 with
  | none =>
      show (0 : ℚ) ≤ _
      refine List.sum_nonneg ?_
      intro q hq
      obtain ⟨x, hx, rfl⟩ := List.mem_map.1 hq
      exact hsub0 x (hsub x (List.mem_filter.1 hx).1)
  | some p =>
      show p.subtotal ≤ _
      have hb2 : minByPrice (g.2.filter (fun q => [s].contains q.store_id)) = some p := hb
      obtain ⟨hpmem, _⟩ := minByPrice_spec _ p hb2
      refine List.single_le_sum ?_ _ (List.mem_map_of_mem (·.subtotal) hpmem)
      intro q hq
      obtain ⟨x, hx, rfl⟩ := List.mem_map.1 hq
      exact hsub0 x (hsub x (List.mem_filter.1 hx).1)

/-- The sum of the reported store totals is the sum of the allocated
subtotals. -/
theorem atr_total_sum (stores : List Store) (alloc : List (Nat × List ItemPrice)) :
    ((allocation_to_result stores alloc).map (·.total)).sum =
      ((alloc.flatMap (·.2)).map (·.subtotal)).sum := by
  rw [allocation_to_result]
  have hgen : ∀ (r : StoreAllocation → StoreAllocation → Prop) [DecidableRel r]
      (L : List StoreAllocation),
      ((List.insertionSort r L).map (·.total)).sum = (L.map (·.total)).sum :=
    fun r _ L => ((List.perm_insertionSort r L).map (·.total)).sum_eq
  rw [hgen]
  induction alloc with
  | nil => rfl
  | cons g t ih =>
      by_cases hg : g.2 = []
      · simp [List.filterMap_cons, hg, ih]
      · simp [List.filterMap_cons, hg, ih]

/-- On the exact path the allocation total is the winning combination's
total. -/
theorem exact_total (stores : List Store) (pbi : List (Nat × List ItemPrice))
    (c : List Nat) (hnd : (pbi.map (·.1)).Nodup) :
    ((allocation_to_result stores
        (exact_allocation pbi c (combo_missing pbi c))).map (·.total)).sum =
      combo_total pbi c := by
  rw [atr_total_sum, exact_allocation]
  have hperm := choiceFold_flatMap pbi
    (fun g => if g.1 ∈ combo_missing pbi c then none else best_in_combo c g.2)
  rw [(hperm.map (·.subtotal)).sum_eq]
  rw [List.map_filterMap]
  rw [combo_total]
  refine congrArg List.sum (List.filterMap_congr ?_)
  intro g hg
  by_cases hmiss : g.1 ∈ combo_missing pbi c
  · rw [if_pos hmiss]
    have hmiss2 := hmiss
    rw [combo_missing] at hmiss2
    obtain ⟨g2, hg2, he⟩ := List.mem_map.1 hmiss2
    obtain ⟨hg2mem, hg2none⟩ := List.mem_filter.1 hg2
    have hgg : g2 = g := List.inj_on_of_nodup_map hnd hg2mem hg he
    rw [← hgg]
    have hbn : best_in_combo c g2.2 = none :=
      Option.isNone_iff_eq_none.1 (by simpa using hg2none)
    rw [hbn]
  · rw [if_neg hmiss]

/-- `_add_price_comparison` does not change the reported store totals. -/
theorem apc_total_map (al : List StoreAllocation) (ips : List ItemPrice) :
    (add_price_comparison al ips).map (·.total) = al.map (·.total) := by
  rw [add_price_comparison, List.map_map]
  rfl

/-- If some store covers every priced item, the single-store baseline is at
least any lower bound of the per-complete-store one-stop totals. -/
theorem single_store_cost_ge (ips : List ItemPrice) (a : ℚ) (h2 : ips ≠ [])
    (hsub0 : ∀ ip ∈ ips, 0 ≤ ip.subtotal)
    (hcomp : ∃ s, ∀ g ∈ groupByKey (·.item_id) ips, ∃ ip ∈ g.2, ip.store_id = s)
    (hbound : ∀ s2, (∀ g ∈ groupByKey (·.item_id) ips, ∃ ip ∈ g.2, ip.store_id = s2) →
      a ≤ combo_total (groupByKey (·.item_id) ips) [s2]) :
    a ≤ calculate_single_store_cost ips := by
  obtain ⟨s, hs⟩ := hcomp
  simp only [calculate_single_store_cost]
  set SI := ips.foldl (fun m ip => addToSet ip.store_id ip.item_id m) [] with hSI
  set AI := (ips.map (·.item_id)).dedup with hAI
  set CS := (SI.filter (fun g => setEqNat g.2 AI)).map (·.1) with hCS
  obtain ⟨ip0, hip0⟩ := List.exists_mem_of_ne_nil ips h2
  obtain ⟨b0, hb0, hip0b⟩ := groupByKey_lookup_of_mem (·.item_id) ips ip0 hip0
  have hpair0 : (ip0.item_id, b0) ∈ groupByKey (·.item_id) ips := lookup?_mem _ _ _ hb0
  obtain ⟨ips0, hips0mem, hips0sid⟩ := hs _ hpair0
  have hips0ips : ips0 ∈ ips := by
    refine (groupByKey_flatMap_perm (·.item_id) ips).mem_iff.1 ?_
    exact List.mem_flatMap.2 ⟨(ip0.item_id, b0), hpair0, hips0mem⟩
  have hy0 : ips0.item_id ∈ (lookup? s SI).getD [] := by
    rw [hSI]
    exact (store_items_getD_mem ips s ips0.item_id).2 ⟨ips0, hips0ips, hips0sid, rfl⟩
  obtain ⟨xs1, hxs1⟩ : ∃ xs1, lookup? s SI = some xs1 := by
    cases hl : lookup? s SI with
    | none =>
        rw [hl] at hy0
        simp at hy0
    | some v => exact ⟨v, rfl⟩
  have hxs1mem : ∀ y, y ∈ xs1 ↔ ∃ ip ∈ ips, ip.store_id = s ∧ ip.item_id = y := by
    intro y
    have hmm := store_items_getD_mem ips s y
    rw [← hSI, hxs1] at hmm
    simpa using hmm
  have hseq : setEqNat xs1 AI = true := by
    rw [setEqNat, Bool.and_eq_true, List.all_eq_true, List.all_eq_true]
    constructor
    · intro y hy
      obtain ⟨ip1, hip1, _, hiy⟩ := (hxs1mem y).1 hy
      refine List.elem_iff.2 ?_
      rw [hAI]
      exact List.mem_dedup.2 (hiy ▸ List.mem_map_of_mem _ hip1)
    · intro y hy
      have hy2 : y ∈ (ips.map (·.item_id)).dedup := by rw [← hAI]; exact hy
      obtain ⟨ip1, hip1, hiy⟩ := List.mem_map.1 (List.mem_dedup.1 hy2)
      obtain ⟨b1, hb1, hip1b⟩ := groupByKey_lookup_of_mem (·.item_id) ips ip1 hip1
      have hpair1 : (ip1.item_id, b1) ∈ groupByKey (·.item_id) ips := lookup?_mem _ _ _ hb1
      obtain ⟨ipc, hipcg, hipcs⟩ := hs _ hpair1
      have hkey : ipc.item_id = ip1.item_id :=
        groupByKey_content (·.item_id) ips _ hpair1 ipc hipcg
      have hipcips : ipc ∈ ips :=
        (groupByKey_flatMap_perm (·.item_id) ips).mem_iff.1
          (List.mem_flatMap.2 ⟨(ip1.item_id, b1), hpair1, hipcg⟩)
      refine List.elem_iff.2 ((hxs1mem y).2 ⟨ipc, hipcips, hipcs, ?_⟩)
      rw [hkey, hiy]
  have hsCS : s ∈ CS := by
    rw [hCS]
    have hpmem : (s, xs1) ∈ SI.filter (fun g => setEqNat g.2 AI) :=
      List.mem_filter.2 ⟨lookup?_mem _ _ _ hxs1, by simpa using hseq⟩
    exact List.mem_map_of_mem (·.1) hpmem
  have hCSne : ¬ CS = [] := by
    intro hc
    rw [hc] at hsCS
    exact List.not_mem_nil s hsCS
  rw [if_neg hCSne]
  rw [if_neg (store_totals_ne_nil CS ips []
    (Or.inr ⟨ips0, hips0ips, by rw [hips0sid]; exact List.elem_iff.2 hsCS⟩))]
  refine minQ_ge a _ ?_ ?_
  · intro hmapnil
    rw [List.map_eq_nil_iff] at hmapnil
    exact hCSne hmapnil
  · intro x hx
    obtain ⟨s2, hs2CS, rfl⟩ := List.mem_map.1 hx
    have hs2CS0 := hs2CS
    have hs2cov : ∀ g ∈ groupByKey (·.item_id) ips, ∃ ip ∈ g.2, ip.store_id = s2 := by
      intro g hg
      obtain ⟨xg, hxg⟩ : ∃ x0, x0 ∈ g.2 := by
        cases hgl : g.2 with
        | nil => exact absurd hgl (groupByKey_buckets_nonempty (·.item_id) ips g hg)
        | cons z zs => exact ⟨z, List.mem_cons_self _ _⟩
      have hxgips : xg ∈ ips := (groupByKey_flatMap_perm (·.item_id) ips).mem_iff.1
        (List.mem_flatMap.2 ⟨g, hg, hxg⟩)
      have hkeyg : xg.item_id = g.1 := groupByKey_content (·.item_id) ips g hg xg hxg
      have hgAI : g.1 ∈ AI := by
        rw [hAI]
        exact List.mem_dedup.2 (hkeyg ▸ List.mem_map_of_mem _ hxgips)
      rw [hCS] at hs2CS
      obtain ⟨g2, hg2f, hg2fst⟩ := List.mem_map.1 hs2CS
      obtain ⟨hg2SI, hg2eq⟩ := List.mem_filter.1 hg2f
      rw [setEqNat, Bool.and_eq_true, List.all_eq_true, List.all_eq_true] at hg2eq
      have hg1g2 : g.1 ∈ g2.2 := List.elem_iff.1 (hg2eq.2 g.1 hgAI)
      rw [hSI] at hg2SI
      obtain ⟨ipr, hipr, hiprs, hipri⟩ := store_items_mem_content ips g2 hg2SI g.1 hg1g2
      obtain ⟨br, hbr, hiprb⟩ := groupByKey_lookup_of_mem (·.item_id) ips ipr hipr
      have hlg : lookup? g.1 (groupByKey (·.item_id) ips) = some g.2 :=
        mem_lookup?_of_nodup _ g (groupByKey_keys_nodup _ _) hg
      rw [hipri, hlg] at hbr
      have hbrg : g.2 = br := Option.some_inj.1 hbr
      refine ⟨ipr, ?_, hiprs.trans hg2fst⟩
      rw [hbrg]
      exact hiprb
    have hb1 : a ≤ combo_total (groupByKey (·.item_id) ips) [s2] := hbound s2 hs2cov
    have hb2 : combo_total (groupByKey (·.item_id) ips) [s2] ≤
        ((ips.filter (fun ip => ip.store_id == s2)).map (·.subtotal)).sum :=
      combo_total_single_le ips s2 hsub0
    have hb3 : (lookup? s2 (ips.foldl
        (fun m ip =>
          if CS.contains ip.store_id then addVal ip.store_id ip.subtotal m else m)
        [])).getD 0 =
        ((ips.filter (fun ip => ip.store_id == s2)).map (·.subtotal)).sum := by
      rw [store_totals_getD CS s2 hs2CS0 ips []]
      simp [lookup?_nil]
    rw [hb3]
    exact le_trans hb1 hb2

end Gen

/-- C1 (amended): in the generic optimizer every input item lands in exactly
one of the two result places: it is allocated to exactly one store, or its id
is listed in `items_without_price` (which absorbs both unpriced items and
items excluded by the store cap; the result has no
`items_outside_selected_stores` field). -/
theorem C1_item_partition (stores : List Gen.Store) (items : List Gen.SLItem)
    (msOpt : Option Nat) (ips : List Gen.ItemPrice)
    (hids : ∀ ip ∈ ips, ip.item_id ∈ items.map (·.id)) (it : Gen.SLItem)
    (hit : it ∈ items) :
    ((((Gen.optimize stores items msOpt ips).allocations.flatMap (·.items)).map
        (·.item_id)).count it.id = 1 ∧
      it.id ∉ (Gen.optimize stores items msOpt ips).items_without_price) ∨
    ((((Gen.optimize stores items msOpt ips).allocations.flatMap (·.items)).map
        (·.item_id)).count it.id = 0 ∧
      it.id ∈ (Gen.optimize stores items msOpt ips).items_without_price) := by
  by_cases hitems : items = []
  · rw [hitems] at hit; simp at hit
  by_cases hips : ips = []
  · subst hips
    right
    constructor
    · simp [Gen.optimize, hitems, Gen.failResult]
    · simp only [Gen.optimize, if_neg hitems, if_pos rfl, Gen.failResult]
      exact List.mem_map_of_mem _ hit
  simp only [Gen.optimize, if_neg hitems, if_neg hips]
  obtain ⟨hnodup, hsubids⟩ := Gen.optimize_allocation_ids stores ips
    (match msOpt with | some n => if n = 0 then 3 else n | none => 3)
  set m := (match msOpt with | some n => if n = 0 then 3 else n | none => 3) with hm
  set A0 := (Gen.optimize_allocation stores ips m).1 with hA0
  set ids0 := ((A0.flatMap (·.items)).map (·.item_id)) with hids0
  have happly : ((Gen.add_price_comparison A0 ips).flatMap (·.items)).map (·.item_id)
      = ids0 := Gen.apc_item_ids A0 ips
  simp only [happly]
  set iwp := (items.filter
    (fun it => !((ips.map (·.item_id)).contains it.id))).map (·.id) with hiwp
  have hiwp_iff : ∀ j : Nat, j ∈ iwp ↔
      ∃ it2 ∈ items, it2.id = j ∧ j ∉ ips.map (·.item_id) := by
    intro j
    rw [hiwp]
    constructor
    · intro hj
      obtain ⟨it2, hit2, hj2⟩ := List.mem_map.1 hj
      obtain ⟨hit2m, hpred⟩ := List.mem_filter.1 hit2
      refine ⟨it2, hit2m, hj2, ?_⟩
      rw [← hj2]
      simpa using hpred
    · rintro ⟨it2, hit2, rfl, hnm⟩
      exact List.mem_map_of_mem _ (List.mem_filter.2 ⟨hit2, by simpa using hnm⟩)
  by_cases hmem : it.id ∈ ids0
  · left
    constructor
    · have hle := List.nodup_iff_count_le_one.1 hnodup it.id
      have hge : 0 < ids0.count it.id := List.count_pos_iff.2 hmem
      omega
    · intro hin
      rcases List.mem_append.1 hin with hin | hin
      · obtain ⟨it2, _, _, hnm⟩ := (hiwp_iff it.id).1 hin
        exact hnm (hsubids it.id hmem)
      · obtain ⟨it2, hit2, hj2⟩ := List.mem_map.1 hin
        obtain ⟨_, hpred⟩ := List.mem_filter.1 hit2
        rw [Bool.and_eq_true] at hpred
        have : it2.id ∉ ids0 := by simpa using hpred.1
        rw [hj2] at this
        exact this hmem
  · right
    have hcount : ids0.count it.id = 0 := List.count_eq_zero.2 hmem
    refine ⟨hcount, ?_⟩
    by_cases hpriced : it.id ∈ ips.map (·.item_id)
    · refine List.mem_append.2 (Or.inr ?_)
      refine List.mem_map.2 ⟨it, List.mem_filter.2 ⟨hit, ?_⟩, rfl⟩
      rw [Bool.and_eq_true]
      constructor
      · simpa using hmem
      · have : it.id ∉ iwp := by
          intro hin
          obtain ⟨it2, _, _, hnm⟩ := (hiwp_iff it.id).1 hin
          exact hnm hpriced
        simpa using this
    · exact List.mem_append.2 (Or.inl ((hiwp_iff it.id).2 ⟨it, hit, rfl, hpriced⟩))

/-- C1 counterexample: with `max_stores = 1`, item 1 has a fresh price (only
at store 1, which is not selected) yet is reported in `items_without_price`
rather than in a separate `items_outside_selected_stores` list — refuting the
claim that such items are never merged into `items_without_price`. -/
theorem C1_counterexample :
    (Gen.optimize [] Ex.items2 (some 1) Ex.ipsTwoSingle).items_without_price = [1] ∧
    1 ∈ Ex.ipsTwoSingle.map (·.item_id) ∧
    ¬ ∃ a ∈ (Gen.optimize [] Ex.items2 (some 1) Ex.ipsTwoSingle).allocations,
        1 ∈ a.items.map (·.item_id) := by
  with_unfolding_all decide

/-- C1 witness: the partition theorem applied at a concrete run. -/
theorem C1_witness :
    ((∀ ip ∈ Ex.ipsScenario, ip.item_id ∈ Ex.items2.map (·.id)) ∧
      (⟨1, 1, 1⟩ : Gen.SLItem) ∈ Ex.items2) ∧
    (let r := Gen.optimize [] Ex.items2 (some 2) Ex.ipsScenario
     let xs := (r.allocations.flatMap (·.items)).map (·.item_id)
     (xs.count 1 = 1 ∧ (1 : Nat) ∉ r.items_without_price) ∨
       (xs.count 1 = 0 ∧ (1 : Nat) ∈ r.items_without_price)) :=
  ⟨⟨by decide, by decide⟩,
    C1_item_partition [] Ex.items2 (some 2) Ex.ipsScenario (by decide) ⟨1, 1, 1⟩ (by decide)⟩

/-- C2 (amended): `savings` is the raw difference of the single-store
baseline and the allocation total with no `max(0, ·)` clamp (it can go
negative after redistribution), `savings_percent` follows the guarded
division formula, and `potential_savings` is non-negative because every
allocated offer is dominated by its worst-price term. -/
theorem C2_savings_formula (stores : List Gen.Store) (items : List Gen.SLItem)
    (msOpt : Option Nat) (ips : List Gen.ItemPrice)
    (h1 : items ≠ []) (h2 : ips ≠ [])
    (hq : ∀ ip ∈ ips, 0 ≤ ip.quantity)
    (hs : ∀ ip ∈ ips, ip.subtotal = ip.price * ip.quantity) :
    (Gen.optimize stores items msOpt ips).savings =
      (Gen.optimize stores items msOpt ips).total_if_single_store -
        (Gen.optimize stores items msOpt ips).total_cost ∧
    (Gen.optimize stores items msOpt ips).savings_percent =
      (if 0 < (Gen.optimize stores items msOpt ips).total_if_single_store then
        (Gen.optimize stores items msOpt ips).savings /
          (Gen.optimize stores items msOpt ips).total_if_single_store * 100
      else 0) ∧
    (Gen.optimize stores items msOpt ips).potential_savings =
      (Gen.optimize stores items msOpt ips).total_worst_cost -
        (Gen.optimize stores items msOpt ips).total_cost ∧
    0 ≤ (Gen.optimize stores items msOpt ips).potential_savings := by
  simp only [Gen.optimize, if_neg h1, if_neg h2]
  refine ⟨trivial, trivial, trivial, ?_⟩
  rw [sub_nonneg]
  obtain ⟨pbi, choice, heq, hnodup, hcontent, hmem, hok⟩ :=
    Gen.optimize_allocation_choice stores ips
      (match msOpt with | some n => if n = 0 then 3 else n | none => 3)
  refine List.sum_le_sum ?_
  intro a ha
  simp only [Gen.add_price_comparison] at ha
  obtain ⟨a0, ha0, rfl⟩ := List.mem_map.1 ha
  rw [heq] at ha0
  obtain ⟨htotal, g, hg, hitems⟩ := Gen.allocation_to_result_mem stores _ _ ha0
  have hxips : ∀ x ∈ a0.items, x ∈ ips := by
    intro x hx
    rw [hitems] at hx
    have hbag : x ∈ (Gen.choiceFold pbi choice).flatMap (·.2) :=
      List.mem_flatMap.2 ⟨g, hg, hx⟩
    have hfm := (Gen.choiceFold_flatMap pbi choice).subset hbag
    obtain ⟨g2, hg2, hcg2⟩ := List.mem_filterMap.1 hfm
    exact hmem g2 hg2 x (hok g2 hg2 x hcg2)
  show a0.total ≤ _
  rw [htotal, List.map_map]
  refine List.sum_le_sum ?_
  intro x hx
  exact Gen.stamp_worst_bound ips x (hxips x hx) (hq x (hxips x hx)) (hs x (hxips x hx))

/-- C2 counterexample: a redistribution run whose `savings` is `-94`:
the value is not clamped at zero, so `savings = max(0, single − total)` and
`savings ≥ 0` both fail on the code. -/
theorem C2_counterexample :
    (Gen.optimize [] Ex.items5 (some 4) Ex.ipsRedistr).savings = -94 ∧
    (Gen.optimize [] Ex.items5 (some 4) Ex.ipsRedistr).savings ≠
      max 0 ((Gen.optimize [] Ex.items5 (some 4) Ex.ipsRedistr).total_if_single_store -
        (Gen.optimize [] Ex.items5 (some 4) Ex.ipsRedistr).total_cost) ∧
    ¬ (0 ≤ (Gen.optimize [] Ex.items5 (some 4) Ex.ipsRedistr).savings) := by
  with_unfolding_all decide

/-- C2 witness: the amended formula theorem applied at a concrete run. -/
theorem C2_witness :
    (Ex.items2 ≠ [] ∧ Ex.ipsScenario ≠ [] ∧
      (∀ ip ∈ Ex.ipsScenario, 0 ≤ ip.quantity) ∧
      (∀ ip ∈ Ex.ipsScenario, ip.subtotal = ip.price * ip.quantity)) ∧
    ((Gen.optimize [] Ex.items2 (some 2) Ex.ipsScenario).savings =
      (Gen.optimize [] Ex.items2 (some 2) Ex.ipsScenario).total_if_single_store -
        (Gen.optimize [] Ex.items2 (some 2) Ex.ipsScenario).total_cost ∧
    (Gen.optimize [] Ex.items2 (some 2) Ex.ipsScenario).savings_percent =
      (if 0 < (Gen.optimize [] Ex.items2 (some 2) Ex.ipsScenario).total_if_single_store then
        (Gen.optimize [] Ex.items2 (some 2) Ex.ipsScenario).savings /
          (Gen.optimize [] Ex.items2 (some 2) Ex.ipsScenario).total_if_single_store * 100
      else 0) ∧
    (Gen.optimize [] Ex.items2 (some 2) Ex.ipsScenario).potential_savings =
      (Gen.optimize [] Ex.items2 (some 2) Ex.ipsScenario).total_worst_cost -
        (Gen.optimize [] Ex.items2 (some 2) Ex.ipsScenario).total_cost ∧
    0 ≤ (Gen.optimize [] Ex.items2 (some 2) Ex.ipsScenario).potential_savings) :=
  ⟨⟨by decide, by decide, by decide, by with_unfolding_all decide⟩,
    C2_savings_formula [] Ex.items2 (some 2) Ex.ipsScenario (by decide) (by decide)
      (by decide) (by with_unfolding_all decide)⟩

/-- C3 counterexample: with `max_stores = 4` the redistribution allocates 5
distinct stores although the required-store set is empty (so the claim's only
permitted exception does not apply), and the result message is the plain
success text with no infeasible-cap flag. -/
theorem C3_counterexample :
    (((Gen.optimize [] Ex.items5 (some 4) Ex.ipsOverflow).allocations.map
        (·.store_id)).dedup).length = 5 ∧
    Gen.required_stores (Gen.sort_groups (groupByKey (·.item_id) Ex.ipsOverflow)) = [] ∧
    (Gen.optimize [] Ex.items5 (some 4) Ex.ipsOverflow).message =
      "Lista otimizada em 5 supermercado(s)" := by
  with_unfolding_all decide

/-- C3 witness: the amended cap bound applied at a concrete run. -/
theorem C3_witness :
    (Gen.optimize_allocation [] Ex.ipsScenario 1).2 = false ∧
    (((Gen.optimize_allocation [] Ex.ipsScenario 1).1.map (·.store_id)).dedup).length ≤ 1 :=
  ⟨by with_unfolding_all decide,
    Gen.optimize_allocation_cap [] Ex.ipsScenario 1 (by with_unfolding_all decide)⟩

/-- C4: with `1 ≤ max_stores ≤ 3` and at most 15 candidate stores, the
generic optimizer runs the bounded exact search: it scans every store
combination of size `1..max_stores` in enumeration order, the winner is the
first combination that maximizes coverage and, among max-coverage
combinations, minimizes total cost (every earlier combination is strictly
worse), its coverage is best over every store set with at most `max_stores`
distinct candidate stores, and the allocation is rebuilt from the winning
combination with no overflow flag. -/
theorem C4_exact_search (stores : List Gen.Store) (ips : List Gen.ItemPrice)
    (m : Nat) (pbi : List (Nat × List Gen.ItemPrice)) (sids : List Nat)
    (hpbi : pbi = groupByKey (·.item_id) ips)
    (hsids : sids = List.insertionSort (fun a b => a ≤ b) ((ips.map (·.store_id)).dedup))
    (h1 : 1 ≤ m) (h2 : m ≤ 3) (h3 : sids.length ≤ 15) (hips : ips ≠ []) :
    ∃ c L₁ L₂,
      Gen.find_best_store_set pbi sids m = (some c, Gen.combo_missing pbi c) ∧
      Gen.all_combos sids m = L₁ ++ c :: L₂ ∧
      c.Sublist sids ∧ 1 ≤ c.length ∧ c.length ≤ m ∧
      (∀ d ∈ L₁, Gen.strictly_better pbi c d) ∧
      (∀ d ∈ Gen.all_combos sids m,
        Gen.combo_covered pbi d ≤ Gen.combo_covered pbi c ∧
        (Gen.combo_covered pbi d = Gen.combo_covered pbi c →
          Gen.combo_total pbi c ≤ Gen.combo_total pbi d)) ∧
      (∀ S : List Nat, (∀ x ∈ S, x ∈ sids) → S.dedup.length ≤ m →
        Gen.combo_covered pbi S ≤ Gen.combo_covered pbi c) ∧
      Gen.optimize_allocation stores ips m =
        (Gen.allocation_to_result stores
          (Gen.exact_allocation pbi c (Gen.combo_missing pbi c)), false) := by
  have hsnd : sids.Nodup := by
    rw [hsids]
    exact (List.perm_insertionSort _ _).nodup_iff.2 (List.nodup_dedup _)
  obtain ⟨p, hp⟩ := List.exists_mem_of_ne_nil ips hips
  have hpst : p.store_id ∈ sids := by
    rw [hsids]
    exact (List.mem_insertionSort _).2 (List.mem_dedup.2 (List.mem_map_of_mem _ hp))
  have hcombo_ne : Gen.all_combos sids m ≠ [] := by
    apply List.ne_nil_of_mem (a := [p.store_id])
    rw [Gen.mem_all_combos]
    exact ⟨List.singleton_sublist.2 hpst, by simp, by simpa using h1⟩
  obtain ⟨c, L₁, L₂, hfb, hdecomp, hstrict, hcov, htot⟩ :=
    Gen.find_best_store_set_spec pbi sids m hcombo_ne
  have hcmem : c ∈ Gen.all_combos sids m := by
    rw [hdecomp]
    exact List.mem_append.2 (Or.inr (List.mem_cons_self _ _))
  obtain ⟨hcsub, hclen1, hclenm⟩ := (Gen.mem_all_combos sids m c).1 hcmem
  refine ⟨c, L₁, L₂, hfb, hdecomp, hcsub, hclen1, hclenm, hstrict,
    fun d hd => ⟨hcov d hd, htot d hd⟩, ?_, ?_⟩
  · intro S hS hScard
    rcases eq_or_ne S.dedup [] with hSd | hSd
    · have hS0 : Gen.combo_covered pbi S = Gen.combo_covered pbi ([] : List Nat) :=
        Gen.combo_covered_congr pbi S [] (by
          intro x
          constructor
          · intro hx
            have hx2 : x ∈ S.dedup := List.mem_dedup.2 hx
            rw [hSd] at hx2
            exact absurd hx2 (List.not_mem_nil x)
          · intro hx
            exact absurd hx (List.not_mem_nil x))
      rw [hS0]
      exact Gen.combo_covered_mono pbi [] c
        (fun x hx => absurd hx (List.not_mem_nil x))
    · have hTsub : ∀ x ∈ S.dedup, x ∈ sids := fun x hx => hS x (List.mem_dedup.1 hx)
      obtain ⟨c2, hc2mem, hc2iff⟩ :=
        Gen.exists_combo_of_subset sids S.dedup (List.nodup_dedup S) hTsub hsnd
      have hc2len : 1 ≤ S.dedup.length := by
        cases hSdnil : S.dedup with
        | nil => exact absurd hSdnil hSd
        | cons a t => simp
      have hc2all : c2 ∈ Gen.all_combos sids m := by
        rw [Gen.mem_all_combos]
        obtain ⟨hsub2, hlen2⟩ := (Gen.mem_combos _ sids c2).1 hc2mem
        exact ⟨hsub2, by omega, by omega⟩
      have e1 : Gen.combo_covered pbi S = Gen.combo_covered pbi c2 :=
        Gen.combo_covered_congr pbi S c2
          (fun x => Iff.trans List.mem_dedup.symm (hc2iff x).symm)
      rw [e1]
      exact hcov c2 hc2all
  · have hcond : 1 ≤ m ∧ m ≤ 3 ∧
        (List.insertionSort (fun a b => a ≤ b) ((ips.map (·.store_id)).dedup)).length ≤ 15 :=
      ⟨h1, h2, by rw [← hsids]; exact h3⟩
    rw [Gen.optimize_allocation]
    rw [if_pos hcond]
    rw [← hpbi, ← hsids]
    rw [hfb]
    dsimp only
    rw [if_neg (show ¬c = [] by
      intro hc0
      rw [hc0] at hclen1
      simp at hclen1)]

/-- Witness for C4 on the two-item, two-store scenario with a cap of 2. -/
theorem C4_witness :
    ∃ c L₁ L₂,
      Gen.find_best_store_set (groupByKey (·.item_id) Ex.ipsScenario)
          (List.insertionSort (fun a b => a ≤ b) ((Ex.ipsScenario.map (·.store_id)).dedup)) 2 =
        (some c, Gen.combo_missing (groupByKey (·.item_id) Ex.ipsScenario) c) ∧
      Gen.all_combos
          (List.insertionSort (fun a b => a ≤ b) ((Ex.ipsScenario.map (·.store_id)).dedup)) 2 =
        L₁ ++ c :: L₂ ∧
      c.Sublist (List.insertionSort (fun a b => a ≤ b) ((Ex.ipsScenario.map (·.store_id)).dedup)) ∧
      1 ≤ c.length ∧ c.length ≤ 2 ∧
      (∀ d ∈ L₁, Gen.strictly_better (groupByKey (·.item_id) Ex.ipsScenario) c d) ∧
      (∀ d ∈ Gen.all_combos
          (List.insertionSort (fun a b => a ≤ b) ((Ex.ipsScenario.map (·.store_id)).dedup)) 2,
        Gen.combo_covered (groupByKey (·.item_id) Ex.ipsScenario) d ≤
          Gen.combo_covered (groupByKey (·.item_id) Ex.ipsScenario) c ∧
        (Gen.combo_covered (groupByKey (·.item_id) Ex.ipsScenario) d =
            Gen.combo_covered (groupByKey (·.item_id) Ex.ipsScenario) c →
          Gen.combo_total (groupByKey (·.item_id) Ex.ipsScenario) c ≤
            Gen.combo_total (groupByKey (·.item_id) Ex.ipsScenario) d)) ∧
      (∀ S : List Nat,
        (∀ x ∈ S,
          x ∈ List.insertionSort (fun a b => a ≤ b) ((Ex.ipsScenario.map (·.store_id)).dedup)) →
        S.dedup.length ≤ 2 →
        Gen.combo_covered (groupByKey (·.item_id) Ex.ipsScenario) S ≤
          Gen.combo_covered (groupByKey (·.item_id) Ex.ipsScenario) c) ∧
      Gen.optimize_allocation [] Ex.ipsScenario 2 =
        (Gen.allocation_to_result []
          (Gen.exact_allocation (groupByKey (·.item_id) Ex.ipsScenario) c
            (Gen.combo_missing (groupByKey (·.item_id) Ex.ipsScenario) c)), false) :=
  C4_exact_search [] Ex.ipsScenario 2 _ _ rfl rfl (by decide) (by decide)
    (by with_unfolding_all decide) (by decide)

/-- C5 counterexample: on a redistribution run, store 6 carries every item
(a complete single-store covering exists in the offer set) and the baseline
is 10, yet the allocation total is 104 — `total_if_single_store ≥ total_cost`
fails outside the exact-search path. -/
theorem C5_counterexample :
    (∀ g ∈ groupByKey (·.item_id) Ex.ipsRedistr, ∃ ip ∈ g.2, ip.store_id = 6) ∧
    (Gen.optimize [] Ex.items5 (some 4) Ex.ipsRedistr).total_if_single_store = 10 ∧
    (Gen.optimize [] Ex.items5 (some 4) Ex.ipsRedistr).total_cost = 104 ∧
    ¬ ((Gen.optimize [] Ex.items5 (some 4) Ex.ipsRedistr).total_cost ≤
        (Gen.optimize [] Ex.items5 (some 4) Ex.ipsRedistr).total_if_single_store) := by
  with_unfolding_all decide

/-- C5 (amended): on the bounded exact-search path (`1 ≤ max_stores ≤ 3`, at
most 15 candidate stores), with non-negative subtotals and some store that
offers every item having any offer, the one-store baseline dominates the
multi-store total: `total_cost ≤ total_if_single_store`.  (The greedy and
redistribution paths do not satisfy this, as the counterexample shows.) -/
theorem C5_single_store_baseline (stores : List Gen.Store) (items : List Gen.SLItem)
    (msOpt : Option Nat) (ips : List Gen.ItemPrice) (m : Nat)
    (pbi : List (Nat × List Gen.ItemPrice)) (sids : List Nat)
    (hm : m = (match msOpt with | some n => if n = 0 then 3 else n | none => 3))
    (hpbi : pbi = groupByKey (·.item_id) ips)
    (hsids : sids = List.insertionSort (fun a b => a ≤ b) ((ips.map (·.store_id)).dedup))
    (h1 : items ≠ []) (h2 : ips ≠ [])
    (hm1 : 1 ≤ m) (hm2 : m ≤ 3) (h15 : sids.length ≤ 15)
    (hsub0 : ∀ ip ∈ ips, 0 ≤ ip.subtotal)
    (hcomp : ∃ s, ∀ g ∈ pbi, ∃ ip ∈ g.2, ip.store_id = s) :
    (Gen.optimize stores items msOpt ips).total_cost ≤
      (Gen.optimize stores items msOpt ips).total_if_single_store := by
  subst hpbi hsids
  simp only [Gen.optimize, if_neg h1, if_neg h2]
  rw [← hm]
  obtain ⟨p0, hp0⟩ := List.exists_mem_of_ne_nil ips h2
  have hpst : p0.store_id ∈
      List.insertionSort (fun a b => a ≤ b) ((ips.map (·.store_id)).dedup) :=
    (List.mem_insertionSort _).2 (List.mem_dedup.2 (List.mem_map_of_mem _ hp0))
  have hcombo_ne : Gen.all_combos
      (List.insertionSort (fun a b => a ≤ b) ((ips.map (·.store_id)).dedup)) m ≠ [] := by
    apply List.ne_nil_of_mem (a := [p0.store_id])
    rw [Gen.mem_all_combos]
    exact ⟨List.singleton_sublist.2 hpst, by simp, by simpa using hm1⟩
  obtain ⟨c, L₁, L₂, hfb, hdecomp, hstrict, hcov, htot⟩ :=
    Gen.find_best_store_set_spec (groupByKey (·.item_id) ips)
      (List.insertionSort (fun a b => a ≤ b) ((ips.map (·.store_id)).dedup)) m hcombo_ne
  have hcmem : c ∈ Gen.all_combos
      (List.insertionSort (fun a b => a ≤ b) ((ips.map (·.store_id)).dedup)) m := by
    rw [hdecomp]
    exact List.mem_append.2 (Or.inr (List.mem_cons_self _ _))
  obtain ⟨hcsub, hclen1, hclenm⟩ := (Gen.mem_all_combos _ _ c).1 hcmem
  have hcond : 1 ≤ m ∧ m ≤ 3 ∧
      (List.insertionSort (fun a b => a ≤ b) ((ips.map (·.store_id)).dedup)).length ≤ 15 :=
    ⟨hm1, hm2, h15⟩
  have hallocEq : Gen.optimize_allocation stores ips m =
      (Gen.allocation_to_result stores
        (Gen.exact_allocation (groupByKey (·.item_id) ips) c
          (Gen.combo_missing (groupByKey (·.item_id) ips) c)), false) := by
    rw [Gen.optimize_allocation]
    rw [if_pos hcond]
    rw [hfb]
    dsimp only
    rw [if_neg (show ¬c = [] by
      intro hc0
      rw [hc0] at hclen1
      simp at hclen1)]
  rw [hallocEq]
  dsimp only
  rw [Gen.apc_total_map]
  rw [Gen.exact_total stores (groupByKey (·.item_id) ips) c
    (groupByKey_keys_nodup (·.item_id) ips)]
  refine Gen.single_store_cost_ge ips _ h2 hsub0 hcomp ?_
  intro s2 hs2cov
  obtain ⟨b0, hb0, hp0b⟩ := groupByKey_lookup_of_mem (·.item_id) ips p0 hp0
  have hpair0 : (p0.item_id, b0) ∈ groupByKey (·.item_id) ips := lookup?_mem _ _ _ hb0
  obtain ⟨ipr, hipr, hiprs⟩ := hs2cov _ hpair0
  have hiprips : ipr ∈ ips :=
    (groupByKey_flatMap_perm (·.item_id) ips).mem_iff.1
      (List.mem_flatMap.2 ⟨(p0.item_id, b0), hpair0, hipr⟩)
  have hs2sids : s2 ∈
      List.insertionSort (fun a b => a ≤ b) ((ips.map (·.store_id)).dedup) := by
    rw [← hiprs]
    exact (List.mem_insertionSort _).2 (List.mem_dedup.2 (List.mem_map_of_mem _ hiprips))
  have hmem1 : [s2] ∈ Gen.all_combos
      (List.insertionSort (fun a b => a ≤ b) ((ips.map (·.store_id)).dedup)) m := by
    rw [Gen.mem_all_combos]
    exact ⟨List.singleton_sublist.2 hs2sids, by simp, by simpa using hm1⟩
  have hfull : Gen.combo_covered (groupByKey (·.item_id) ips) [s2] =
      (groupByKey (·.item_id) ips).length :=
    Gen.combo_covered_full _ s2 hs2cov
  have hcovc : Gen.combo_covered (groupByKey (·.item_id) ips) [s2] =
      Gen.combo_covered (groupByKey (·.item_id) ips) c := by
    refine le_antisymm (hcov _ hmem1) ?_
    rw [hfull]
    exact Gen.combo_covered_le_length _ c
  exact htot [s2] hmem1 hcovc

/-- Witness for C5 on the two-item, two-store scenario: both stores are
complete, the exact path runs, and `13 = total_cost ≤ total_if_single_store
= 15`. -/
theorem C5_witness :
    (Gen.optimize [] Ex.items2 (some 2) Ex.ipsScenario).total_cost ≤
      (Gen.optimize [] Ex.items2 (some 2) Ex.ipsScenario).total_if_single_store :=
  C5_single_store_baseline [] Ex.items2 (some 2) Ex.ipsScenario 2 _ _ rfl rfl rfl
    (by decide) (by decide) (by decide) (by decide) (by with_unfolding_all decide)
    (by decide) ⟨1, by with_unfolding_all decide⟩

namespace App

theorem greedy_loop_length (pbi : List (Nat × List ItemPrice)) (ids : List Nat)
    (sib : List (Nat × List (Nat × ItemPrice))) (cands : List Nat) :
    ∀ (n : Nat) (st : List Nat × List (Nat × ItemPrice)),
      (greedy_loop pbi ids sib cands n st).1.length ≤ st.1.length + n := by
  intro n
  induction n with
  | zero => intro st; simp [greedy_loop]
  | succ n ih =>
      intro st
      rw [greedy_loop]
      cases hsel : select_store cands st.1
          (fun sid => store_score pbi ids ((lookup? sid sib).getD []) st.2) with
      | none => simp
      | some bs =>
          by_cases hlen :
              (merge_store st.2 ((lookup? bs sib).getD [])).length = ids.length
          · simp only [hlen, if_true]
            simp only [List.length_append, List.length_cons, List.length_nil]
            omega
          · simp only [hlen, if_false]
            refine le_trans (ih _) ?_
            simp only [List.length_append, List.length_cons, List.length_nil]
            omega

theorem alloc_fold_bound (bbi : List (Nat × ItemPrice)) (selected : List Nat)
    (ids : List Nat) :
    ∀ (acc : List (Nat × List ItemPrice) × List Nat),
    ((acc.1.map (·.1)).Nodup) → (∀ s ∈ acc.1.map (·.1), s ∈ selected) →
    (((ids.foldl (fun (acc : List (Nat × List ItemPrice) × List Nat) item_id =>
        match lookup? item_id bbi with
        | some best =>
            if selected.contains best.store_id then
              (pushBucket best.store_id best acc.1, acc.2)
            else (acc.1, acc.2 ++ [item_id])
        | none => (acc.1, acc.2 ++ [item_id])) acc).1.map (·.1)).Nodup ∧
      ∀ s ∈ ((ids.foldl (fun (acc : List (Nat × List ItemPrice) × List Nat) item_id =>
        match lookup? item_id bbi with
        | some best =>
            if selected.contains best.store_id then
              (pushBucket best.store_id best acc.1, acc.2)
            else (acc.1, acc.2 ++ [item_id])
        | none => (acc.1, acc.2 ++ [item_id])) acc).1.map (·.1)), s ∈ selected) := by
  induction ids with
  | nil => intro acc h1 h2; exact ⟨h1, h2⟩
  | cons i t ih =>
      intro acc h1 h2
      rw [List.foldl_cons]
      cases hb : lookup? i bbi with
      | none => exact ih _ h1 h2
      | some best =>
          by_cases hc : selected.contains best.store_id = true
          · simp only [hb, hc, if_true]
            refine ih _ (pushBucket_keys_nodup _ _ _ h1) ?_
            intro s hs
            rcases pushBucket_keys_sub best.store_id best acc.1 s hs with hs2 | hs2
            · exact h2 s hs2
            · rw [hs2]
              exact List.elem_iff.1 hc
          · rw [Bool.not_eq_true] at hc
            simp only [hb, hc, Bool.false_eq_true, if_false]
            exact ih _ h1 h2

theorem fb_step_lookup (stores : List Store) (c : Nat) (r : PriceRow)
    (m0 : List (Nat × FallbackPrice)) :
    lookup? c
      (match stores.find? (fun s => s.id == r.loja_id) with
        | none => m0
        | some st =>
            match lookup? r.canonical_id m0 with
            | none => m0 ++ [(r.canonical_id,
                { canonical_id := r.canonical_id, store_id := r.loja_id,
                  store_name := storeDisplayName st, price := r.preco_por_unidade,
                  price_date := r.data_coleta })]
            | some prev =>
                if r.preco_por_unidade < prev.price then
                  setVal r.canonical_id
                    { canonical_id := r.canonical_id, store_id := r.loja_id,
                      store_name := storeDisplayName st, price := r.preco_por_unidade,
                      price_date := r.data_coleta } m0
                else m0) =
      (match stores.find? (fun s => s.id == r.loja_id) with
        | none => lookup? c m0
        | some st =>
            if r.canonical_id = c then
              match lookup? c m0 with
              | none => some
                  { canonical_id := r.canonical_id, store_id := r.loja_id,
                    store_name := storeDisplayName st, price := r.preco_por_unidade,
                    price_date := r.data_coleta }
              | some prev =>
                  if r.preco_por_unidade < prev.price then
                    some
                      { canonical_id := r.canonical_id, store_id := r.loja_id,
                        store_name := storeDisplayName st, price := r.preco_por_unidade,
                        price_date := r.data_coleta }
                  else lookup? c m0
            else lookup? c m0) := by
  cases hf : stores.find? (fun s => s.id == r.loja_id) with
  | none => rfl
  | some st =>
      dsimp only
      by_cases hceq : r.canonical_id = c
      · subst hceq
        rw [if_pos rfl]
        cases hl : lookup? r.canonical_id m0 with
        | none =>
            dsimp only
            rw [lookup?_append_right _ m0 _ hl]
            simp
        | some prev =>
            dsimp only
            by_cases hlt : r.preco_por_unidade < prev.price
            · rw [if_pos hlt, if_pos hlt]
              exact lookup?_setVal_self _ _ m0
            · rw [if_neg hlt, if_neg hlt]
              exact hl
      · rw [if_neg hceq]
        cases hl : lookup? r.canonical_id m0 with
        | none =>
            dsimp only
            cases hc : lookup? c m0 with
            | none =>
                rw [lookup?_append_right c m0 _ hc]
                simp [hceq]
            | some v =>
                rw [lookup?_append_left c m0 _ v hc]
        | some prev =>
            dsimp only
            by_cases hlt : r.preco_por_unidade < prev.price
            · rw [if_pos hlt]
              exact lookup?_setVal_ne c r.canonical_id _ m0 hceq
            · rw [if_neg hlt]

/-- The per-product view of the `_get_fallback_prices` fold: its lookup for a
product equals the reference first-wins cheapest scan. -/
theorem fb_fold_lookup (stores : List Store) (c : Nat) (l : List PriceRow) :
    ∀ m0 : List (Nat × FallbackPrice),
    lookup? c
      (l.foldl
        (fun m r =>
          match stores.find? (fun s => s.id == r.loja_id) with
          | none => m
          | some st =>
              match lookup? r.canonical_id m with
              | none => m ++ [(r.canonical_id,
                  { canonical_id := r.canonical_id, store_id := r.loja_id,
                    store_name := storeDisplayName st, price := r.preco_por_unidade,
                    price_date := r.data_coleta })]
              | some prev =>
                  if r.preco_por_unidade < prev.price then
                    setVal r.canonical_id
                      { canonical_id := r.canonical_id, store_id := r.loja_id,
                        store_name := storeDisplayName st, price := r.preco_por_unidade,
                        price_date := r.data_coleta } m
                  else m)
        m0) =
      l.foldl
        (fun acc r =>
          match stores.find? (fun s => s.id == r.loja_id) with
          | none => acc
          | some st =>
              if r.canonical_id = c then
                match acc with
                | none => some
                    { canonical_id := r.canonical_id, store_id := r.loja_id,
                      store_name := storeDisplayName st, price := r.preco_por_unidade,
                      price_date := r.data_coleta }
                | some prev =>
                    if r.preco_por_unidade < prev.price then
                      some
                        { canonical_id := r.canonical_id, store_id := r.loja_id,
                          store_name := storeDisplayName st, price := r.preco_por_unidade,
                          price_date := r.data_coleta }
                    else acc
              else acc)
        (lookup? c m0) := by
  induction l with
  | nil => intro m0; rfl
  | cons r t ih =>
      intro m0
      rw [List.foldl_cons, List.foldl_cons]
      have hstep := fb_step_lookup stores c r m0
      cases hf : stores.find? (fun s => s.id == r.loja_id) with
      | none =>
          rw [hf] at hstep
          rw [ih _]
      | some st =>
          rw [hf] at hstep
          rw [ih _]
          rw [hstep]

/-- Specification of the reference scan: a returned fallback offer is one of
the candidate rows and its price is minimal among the product's candidate
rows; `none` means no candidate row exists. -/
theorem fb_scan_spec (stores : List Store) (c : Nat) (l : List PriceRow) :
    (∀ fb : FallbackPrice, (l.foldl
        (fun acc r =>
          match stores.find? (fun s => s.id == r.loja_id) with
          | none => acc
          | some st =>
              if r.canonical_id = c then
                match acc with
                | none => some
                    { canonical_id := r.canonical_id, store_id := r.loja_id,
                      store_name := storeDisplayName st, price := r.preco_por_unidade,
                      price_date := r.data_coleta }
                | some prev =>
                    if r.preco_por_unidade < prev.price then
                      some
                        { canonical_id := r.canonical_id, store_id := r.loja_id,
                          store_name := storeDisplayName st, price := r.preco_por_unidade,
                          price_date := r.data_coleta }
                    else acc
              else acc)
        (none : Option FallbackPrice)) = some fb →
      (∃ r ∈ l, r.canonical_id = c ∧ r.loja_id = fb.store_id ∧
        r.preco_por_unidade = fb.price) ∧
      ∀ r ∈ l, r.canonical_id = c →
        (stores.find? (fun s => s.id == r.loja_id)).isSome →
        fb.price ≤ r.preco_por_unidade) := by
  have main : ∀ (t : List PriceRow) (acc : Option FallbackPrice),
      ∀ fb, (t.foldl
        (fun acc r =>
          match stores.find? (fun s => s.id == r.loja_id) with
          | none => acc
          | some st =>
              if r.canonical_id = c then
                match acc with
                | none => some
                    { canonical_id := r.canonical_id, store_id := r.loja_id,
                      store_name := storeDisplayName st, price := r.preco_por_unidade,
                      price_date := r.data_coleta }
                | some prev =>
                    if r.preco_por_unidade < prev.price then
                      some
                        { canonical_id := r.canonical_id, store_id := r.loja_id,
                          store_name := storeDisplayName st, price := r.preco_por_unidade,
                          price_date := r.data_coleta }
                    else acc
              else acc)
        acc) = some fb →
      ((acc = some fb ∨ (∃ r ∈ t, r.canonical_id = c ∧ r.loja_id = fb.store_id ∧
          r.preco_por_unidade = fb.price)) ∧
        (∀ fb0, acc = some fb0 → fb.price ≤ fb0.price) ∧
        ∀ r ∈ t, r.canonical_id = c →
          (stores.find? (fun s => s.id == r.loja_id)).isSome →
          fb.price ≤ r.preco_por_unidade) := by
    intro t
    induction t with
    | nil =>
        intro acc fb hfb
        rw [List.foldl_nil] at hfb
        refine ⟨Or.inl hfb, ?_, by simp⟩
        intro fb0 h0
        rw [hfb] at h0
        simp only [Option.some_inj] at h0
        rw [h0]
    | cons r t2 ih =>
        intro acc fb hfb
        rw [List.foldl_cons] at hfb
        cases hf : stores.find? (fun s => s.id == r.loja_id) with
        | none =>
            rw [hf] at hfb
            obtain ⟨hsrc, hacc, hall⟩ := ih acc fb hfb
            refine ⟨?_, hacc, ?_⟩
            · rcases hsrc with h | ⟨r2, hr2, hp⟩
              · exact Or.inl h
              · exact Or.inr ⟨r2, List.mem_cons_of_mem _ hr2, hp⟩
            · intro r2 hr2 hc2 hs2
              rcases List.mem_cons.1 hr2 with hr2 | hr2
              · rw [hr2, hf] at hs2
                simp at hs2
              · exact hall r2 hr2 hc2 hs2
        | some st =>
            rw [hf] at hfb
            dsimp only at hfb
            by_cases hceq : r.canonical_id = c
            · rw [if_pos hceq] at hfb
              cases hacc0 : acc with
              | none =>
                  rw [hacc0] at hfb
                  obtain ⟨hsrc, hacc, hall⟩ := ih _ fb hfb
                  refine ⟨?_, ?_, ?_⟩
                  · rcases hsrc with h | ⟨r2, hr2, hp⟩
                    · simp only [Option.some_inj] at h
                      exact Or.inr ⟨r, List.mem_cons_self _ _, hceq, by rw [← h],
                        by rw [← h]⟩
                    · exact Or.inr ⟨r2, List.mem_cons_of_mem _ hr2, hp⟩
                  · intro fb0 h0
                    simp [hacc0] at h0
                  · intro r2 hr2 hc2 hs2
                    rcases List.mem_cons.1 hr2 with hr2 | hr2
                    · subst hr2
                      exact hacc _ rfl
                    · exact hall r2 hr2 hc2 hs2
              | some prev =>
                  rw [hacc0] at hfb
                  dsimp only at hfb
                  by_cases hlt : r.preco_por_unidade < prev.price
                  · rw [if_pos hlt] at hfb
                    obtain ⟨hsrc, hacc, hall⟩ := ih _ fb hfb
                    refine ⟨?_, ?_, ?_⟩
                    · rcases hsrc with h | ⟨r2, hr2, hp⟩
                      · simp only [Option.some_inj] at h
                        exact Or.inr ⟨r, List.mem_cons_self _ _, hceq, by rw [← h],
                          by rw [← h]⟩
                      · exact Or.inr ⟨r2, List.mem_cons_of_mem _ hr2, hp⟩
                    · intro fb0 h0
                      cases h0
                      have h1 := hacc _ rfl
                      exact le_trans h1 (le_of_lt hlt)
                    · intro r2 hr2 hc2 hs2
                      rcases List.mem_cons.1 hr2 with hr2 | hr2
                      · subst hr2
                        exact hacc _ rfl
                      · exact hall r2 hr2 hc2 hs2
                  · rw [if_neg hlt] at hfb
                    obtain ⟨hsrc, hacc, hall⟩ := ih _ fb hfb
                    refine ⟨?_, ?_, ?_⟩
                    · rcases hsrc with h | ⟨r2, hr2, hp⟩
                      · exact Or.inl h
                      · exact Or.inr ⟨r2, List.mem_cons_of_mem _ hr2, hp⟩
                    · exact hacc
                    · intro r2 hr2 hc2 hs2
                      rcases List.mem_cons.1 hr2 with hr2 | hr2
                      · subst hr2
                        have h1 := hacc prev rfl
                        exact le_trans h1 (not_lt.1 hlt)
                      · exact hall r2 hr2 hc2 hs2
            · rw [if_neg hceq] at hfb
              obtain ⟨hsrc, hacc, hall⟩ := ih acc fb hfb
              refine ⟨?_, hacc, ?_⟩
              · rcases hsrc with h | ⟨r2, hr2, hp⟩
                · exact Or.inl h
                · exact Or.inr ⟨r2, List.mem_cons_of_mem _ hr2, hp⟩
              · intro r2 hr2 hc2 hs2
                rcases List.mem_cons.1 hr2 with hr2 | hr2
                · exact absurd (hr2 ▸ hc2) hceq
                · exact hall r2 hr2 hc2 hs2
  intro fb hfb
  obtain ⟨hsrc, _, hall⟩ := main l none fb hfb
  rcases hsrc with h | h
  · simp at h
  · exact ⟨h, hall⟩

/-- For a non-degenerate request, the per-product content of
`_get_fallback_prices` is the reference scan over the latest-per-store rows. -/
theorem fb_lookup_eq_scan (stores : List Store) (rows : List PriceRow)
    (cids eligible : List Nat) (c : Nat)
    (h : ¬(cids = [] ∨ eligible = [])) :
    lookup? c (get_fallback_prices stores rows cids eligible) =
      fb_scan stores c (latest_rows rows cids eligible) := by
  rw [get_fallback_prices, if_neg h]
  exact fb_fold_lookup stores c (latest_rows rows cids eligible) []

end App

/-- C9: the location-aware greedy allocator never uses more than
`max(1, max_stores)` distinct stores — items only priced outside the selected
stores are left out rather than forcing extra stores. -/
theorem C9_app_store_cap (stores : List App.Store) (ips : List App.ItemPrice)
    (m : Int) :
    (((App.greedy_allocate stores ips m).1.map (·.store_id)).dedup).length ≤
      (max 1 m).toNat := by
  have hmax : max 1 (if m = 0 then (1 : Int) else m) = max 1 m := by
    by_cases hm : m = 0
    · rw [hm]; decide
    · rw [if_neg hm]
  rw [App.greedy_allocate]
  simp only [hmax]
  set pbi := (groupByKey (·.item_id) ips).map
    (fun g => (g.1, List.insertionSort (fun a b => a.price ≤ b.price) g.2)) with hpbi
  set sib := pbi.foldl
    (fun m2 g => g.2.foldl (fun m3 p => App.sibUpdate p.store_id g.1 p m3) m2) [] with hsib
  by_cases hc : sib.map (·.1) = []
  · simp only [if_pos hc]
    simp
  · simp only [if_neg hc]
    set n : Nat := (min (max 1 m) ((sib.map (·.1)).length : Int)).toNat with hn
    set sel := App.greedy_loop pbi (pbi.map (·.1)) sib (sib.map (·.1)) n ([], []) with hsel
    set fin := (pbi.map (·.1)).foldl
      (fun (acc : List (Nat × List App.ItemPrice) × List Nat) item_id =>
        match lookup? item_id sel.2 with
        | some best =>
            if sel.1.contains best.store_id then
              (pushBucket best.store_id best acc.1, acc.2)
            else (acc.1, acc.2 ++ [item_id])
        | none => (acc.1, acc.2 ++ [item_id])) ([], []) with hfin
    obtain ⟨hnd, hsub⟩ := App.alloc_fold_bound sel.2 sel.1 (pbi.map (·.1)) ([], [])
      (by simp) (by simp)
    rw [← hfin] at hnd hsub
    have hkeys : (fin.1.map (·.1)).length ≤ sel.1.length :=
      ((hnd.subperm hsub).length_le)
    have hsel_len : sel.1.length ≤ n := by
      have := App.greedy_loop_length pbi (pbi.map (·.1)) sib (sib.map (·.1)) n ([], [])
      simpa using this
    have hn_le : n ≤ (max 1 m).toNat := by
      rw [hn]
      have h1 : min (max 1 m) ((sib.map (·.1)).length : Int) ≤ max 1 m := min_le_left _ _
      omega
    refine le_trans (List.Sublist.length_le (List.dedup_sublist _)) ?_
    rw [List.length_map, (List.perm_insertionSort _ _).length_eq, List.length_map]
    rw [List.length_map] at hkeys
    omega

/-- C7: when the user's city/UF cannot be resolved to a centroid (either
missing or the lookup fails), the app optimizer returns `success = false`
with a location-failure message, no allocations and every list item in
`items_without_price`; no exception leaves the core. -/
theorem C7_centroid_failure (stores : List App.Store) (items : List App.AppItem)
    (msOpt : Option Int) (uf city : Option String) (eligible : List Nat)
    (ips : List App.ItemPrice) (hne : items ≠ []) :
    (App.optimize_for_user_city stores (some items) msOpt uf city none eligible
        ips).success = false ∧
    (App.optimize_for_user_city stores (some items) msOpt uf city none eligible
        ips).allocations = [] ∧
    (App.optimize_for_user_city stores (some items) msOpt uf city none eligible
        ips).items_without_price = items.map (·.id) ∧
    ((App.optimize_for_user_city stores (some items) msOpt uf city none eligible
        ips).message = "Informe UF e cidade no seu cadastro para otimizar a lista." ∨
     (App.optimize_for_user_city stores (some items) msOpt uf city none eligible
        ips).message =
        "Não foi possível localizar sua cidade para calcular o raio. Tente novamente mais tarde ou ajuste seu cadastro.") := by
  by_cases hf : (App.falsyStr uf || App.falsyStr city) = true
  · simp [App.optimize_for_user_city, hne, hf, App.failResult]
  · rw [Bool.not_eq_true] at hf
    simp [App.optimize_for_user_city, hne, hf, App.failResult]

/-- C7 witness: the failure path at a concrete run. -/
theorem C7_witness :
    Ex.appItems1 ≠ [] ∧
    ((App.optimize_for_user_city [] (some Ex.appItems1) (some 3) (some "PA")
        (some "Belém") none [] []).success = false ∧
      (App.optimize_for_user_city [] (some Ex.appItems1) (some 3) (some "PA")
        (some "Belém") none [] []).allocations = [] ∧
      (App.optimize_for_user_city [] (some Ex.appItems1) (some 3) (some "PA")
        (some "Belém") none [] []).items_without_price = Ex.appItems1.map (·.id) ∧
      ((App.optimize_for_user_city [] (some Ex.appItems1) (some 3) (some "PA")
          (some "Belém") none [] []).message =
          "Informe UF e cidade no seu cadastro para otimizar a lista." ∨
        (App.optimize_for_user_city [] (some Ex.appItems1) (some 3) (some "PA")
          (some "Belém") none [] []).message =
          "Não foi possível localizar sua cidade para calcular o raio. Tente novamente mais tarde ou ajuste seu cadastro.")) :=
  ⟨by decide, C7_centroid_failure [] Ex.appItems1 (some 3) (some "PA") (some "Belém")
    [] [] (by decide)⟩

/-- C10: the haversine distance is symmetric, non-negative, and zero on the
diagonal. -/
theorem C10_haversine (a b : Geo.LatLngR) :
    Geo.haversine_km a b = Geo.haversine_km b a ∧ 0 ≤ Geo.haversine_km a b ∧
    Geo.haversine_km a a = 0 := by
  refine ⟨?_, ?_, ?_⟩
  · simp only [Geo.haversine_km]
    congr 1
    congr 1
    congr 1
    have e1 : Geo.radians (b.lng - a.lng) = -(Geo.radians (a.lng - b.lng)) := by
      simp only [Geo.radians]; ring
    have e2 : Geo.radians b.lat - Geo.radians a.lat =
        -(Geo.radians a.lat - Geo.radians b.lat) := by ring
    rw [e1, e2, neg_div, neg_div, Real.sin_neg, Real.sin_neg]
    ring
  · simp only [Geo.haversine_km]
    exact mul_nonneg (by norm_num) (Real.arcsin_nonneg.2 (Real.sqrt_nonneg _))
  · simp [Geo.haversine_km, Geo.radians, sub_self, Real.sin_zero, Real.sqrt_zero,
      Real.arcsin_zero]

/-- C6 (counterexample): with price history
`[(item 1, store 10, price 5, day 1), (item 1, store 10, price 10, day 2),
(item 1, store 20, price 8, day 1)]` and both stores eligible, the fallback
price returned for item 1 is 8, yet a historical observation of item 1 at
eligible store 10 has price 5 < 8: the scan only sees each store's latest
row, not all of the item's history. -/
theorem C6_counterexample :
    (lookup? 1 (App.get_fallback_prices Ex.fbStores Ex.fbRows [1] [10, 20])).map
        (fun fb => fb.price) = some (8 : ℚ) ∧
    ∃ r ∈ Ex.fbRows, r.canonical_id = 1 ∧ r.loja_id ∈ ([10, 20] : List Nat) ∧
      r.preco_por_unidade = (5 : ℚ) ∧ (5 : ℚ) < 8 := by
  with_unfolding_all decide

/-- C6 (amended): a fallback offer returned by `_get_fallback_prices` for a
product is drawn from the latest-per-store rows of that product, and its price
is minimal among those latest rows whose store is known — the minimum ranges
over each eligible store's most recent observation, not over all historical
observations of the product. -/
theorem C6_fallback (stores : List App.Store) (rows : List App.PriceRow)
    (cids eligible : List Nat) (c : Nat) (fb : App.FallbackPrice)
    (h : ¬(cids = [] ∨ eligible = []))
    (hfb : lookup? c (App.get_fallback_prices stores rows cids eligible) = some fb) :
    (∃ r ∈ App.latest_rows rows cids eligible, r.canonical_id = c ∧
        r.loja_id = fb.store_id ∧ r.preco_por_unidade = fb.price) ∧
    ∀ r ∈ App.latest_rows rows cids eligible, r.canonical_id = c →
      (stores.find? (fun s => s.id == r.loja_id)).isSome →
      fb.price ≤ r.preco_por_unidade := by
  rw [App.fb_lookup_eq_scan stores rows cids eligible c h] at hfb
  exact App.fb_scan_spec stores c (App.latest_rows rows cids eligible) fb hfb

/-- Witness for C6 on the concrete three-row history. -/
theorem C6_witness :
    (∃ r ∈ App.latest_rows Ex.fbRows [1] [10, 20], r.canonical_id = 1 ∧
        r.loja_id = (App.FallbackPrice.mk 1 20 "B" 8 1).store_id ∧
        r.preco_por_unidade = (App.FallbackPrice.mk 1 20 "B" 8 1).price) ∧
    ∀ r ∈ App.latest_rows Ex.fbRows [1] [10, 20], r.canonical_id = 1 →
      (Ex.fbStores.find? (fun s => s.id == r.loja_id)).isSome →
      (App.FallbackPrice.mk 1 20 "B" 8 1).price ≤ r.preco_por_unidade :=
  C6_fallback Ex.fbStores Ex.fbRows [1] [10, 20] 1 (App.FallbackPrice.mk 1 20 "B" 8 1)
    (by decide) (by with_unfolding_all decide)

/-- C8: `resolve_city_centroid` is the four-stage cascade — exact
`city_locations` match on the normalized `(uf, city)`, tolerant same-`uf`
match, store average on the exact `uf`/`city` filter, store average on the
tolerant filter — each stage defined independently of the others, an earlier
success short-circuiting the later stages, and `none` returned exactly when
the normalized inputs are blank or every stage fails. -/
theorem C8_centroid_stages (ck : String → String) (cityLocs : List Geo.CityLocation)
    (storesT : List Geo.GeoStore) (uf city : Option String) :
    (Geo.resolve_city_centroid ck cityLocs storesT uf city =
      (if Geo.normalize_uf (uf.getD "") = "" ∨ Geo.normalize_city (city.getD "") = ""
        then none
       else
        firstSome
          (Geo.centroid_step1 cityLocs (Geo.normalize_uf (uf.getD ""))
            (Geo.normalize_city (city.getD "")))
          (firstSome
            (Geo.centroid_step2 ck cityLocs (Geo.normalize_uf (uf.getD ""))
              (Geo.normalize_city (city.getD "")))
            (firstSome
              (Geo.centroid_step3 storesT (Geo.normalize_uf (uf.getD ""))
                (Geo.normalize_city (city.getD "")))
              (Geo.centroid_step4 ck storesT (Geo.normalize_uf (uf.getD ""))
                (Geo.normalize_city (city.getD ""))))))) ∧
    (Geo.resolve_city_centroid ck cityLocs storesT uf city = none ↔
      ((Geo.normalize_uf (uf.getD "") = "" ∨ Geo.normalize_city (city.getD "") = "") ∨
        (Geo.centroid_step1 cityLocs (Geo.normalize_uf (uf.getD ""))
            (Geo.normalize_city (city.getD "")) = none ∧
         Geo.centroid_step2 ck cityLocs (Geo.normalize_uf (uf.getD ""))
            (Geo.normalize_city (city.getD "")) = none ∧
         Geo.centroid_step3 storesT (Geo.normalize_uf (uf.getD ""))
            (Geo.normalize_city (city.getD "")) = none ∧
         Geo.centroid_step4 ck storesT (Geo.normalize_uf (uf.getD ""))
            (Geo.normalize_city (city.getD "")) = none))) := by
  have hA : Geo.resolve_city_centroid ck cityLocs storesT uf city =
      (if Geo.normalize_uf (uf.getD "") = "" ∨ Geo.normalize_city (city.getD "") = ""
        then none
       else
        firstSome
          (Geo.centroid_step1 cityLocs (Geo.normalize_uf (uf.getD ""))
            (Geo.normalize_city (city.getD "")))
          (firstSome
            (Geo.centroid_step2 ck cityLocs (Geo.normalize_uf (uf.getD ""))
              (Geo.normalize_city (city.getD "")))
            (firstSome
              (Geo.centroid_step3 storesT (Geo.normalize_uf (uf.getD ""))
                (Geo.normalize_city (city.getD "")))
              (Geo.centroid_step4 ck storesT (Geo.normalize_uf (uf.getD ""))
                (Geo.normalize_city (city.getD "")))))) := by
    simp only [Geo.resolve_city_centroid, Geo.centroid_step1, Geo.centroid_step2,
      Geo.centroid_step3, Geo.centroid_step4]
    by_cases hguard : Geo.normalize_uf (uf.getD "") = "" ∨
        Geo.normalize_city (city.getD "") = ""
    · rw [if_pos hguard, if_pos hguard]
    · rw [if_neg hguard, if_neg hguard]
      cases h1 : cityLocs.find? (fun r =>
          r.uf == Geo.normalize_uf (uf.getD "") &&
            r.city == Geo.normalize_city (city.getD "")) with
      | some row => simp [firstSome]
      | none =>
          dsimp only
          cases h2 : (cityLocs.filter (fun r => r.uf == Geo.normalize_uf (uf.getD ""))).find?
              (fun cand => ck cand.city == ck (Geo.normalize_city (city.getD ""))) with
          | some cand => simp [firstSome]
          | none =>
              dsimp only
              by_cases h3 : storesT.filter (fun s =>
                  s.uf == some (Geo.normalize_uf (uf.getD "")) &&
                    s.cidade == some (Geo.normalize_city (city.getD "")) &&
                    s.lat.isSome && s.lng.isSome) = []
              · rw [if_pos h3, if_pos h3]
                by_cases h4 : (storesT.filter (fun s =>
                    s.uf == some (Geo.normalize_uf (uf.getD "")) &&
                      s.cidade.isSome && s.lat.isSome && s.lng.isSome)).filter
                    (fun s => ck (s.cidade.getD "") ==
                      ck (Geo.normalize_city (city.getD ""))) = []
                · rw [if_pos h4]
                  simp [firstSome]
                · rw [if_neg h4]
                  simp [firstSome]
              · rw [if_neg h3, if_neg h3]
                simp [firstSome]
  refine ⟨hA, ?_⟩
  rw [hA]
  by_cases hguard : Geo.normalize_uf (uf.getD "") = "" ∨
      Geo.normalize_city (city.getD "") = ""
  · simp [hguard]
  · rw [if_neg hguard]
    simp [firstSome_eq_none, hguard, and_assoc]

end SL
